import Mathlib

/-!
# Block routine of the thor node (`cmd/thor/block_routine.go`)

A shallow embedding of the consensus loop (`consentLoop`, `consentFn`,
`updateChain`) and of the packer loop (`packLoop`, `pack`) together with the
properties of the natural-language specification that concern them.

Conventions of the embedding
* Go `uint64` / `uint32` values are natural numbers, reduced `% 2^64` / `% 2^32`
  wherever the Go code performs arithmetic that can wrap.
* External collaborators (consensus, chain, clock, packer) are oracles over an
  abstract world `σ`; every call threads the world, so an oracle may answer
  differently on every call.
* Calls into sinks (best-block hand-off, communicator, mempool, log database,
  ack channel) are appended, in program order, to a trace of `Effect`s.
* A Go run-time panic (index out of range) is the outcome `crashed`.
* Logging calls (`log.Info`, `log.Error`) have no effect on any modelled state
  and are left out.
-/

namespace Thor

/-! ## Data model -/

/-- A 32-byte hash (`thor.Bytes32`), abstracted to a number. -/
abbrev Bytes32 := Nat

/-- A 20-byte address (`thor.Address`), abstracted to a number. -/
abbrev Address := Nat

/-- The payload of one event log (`tx.Log`), abstracted to a number. -/
abbrev TxLog := Nat

/-- Two to the 64, the modulus of Go `uint64` arithmetic. -/
def U64 : Nat := 2 ^ 64

/-- Two to the 32, the modulus of Go `uint32` arithmetic. -/
def U32 : Nat := 2 ^ 32

/-- Modelled from the spec: the `error` values of package `consensus` (absent
from the sources) and their classifiers `IsFutureBlock` / `IsParentNotFound`;
section 6 lists the failures of `consent` as FutureBlock, ParentNotFound, Other.
Errors of other collaborators (`chain.AddBlock`, `tx.Signer`) are values of the
same Go interface and therefore of the same type here. -/
inductive Err where
  | futureBlock
  | parentNotFound
  | other (code : Nat)
deriving DecidableEq

/-- Classifier `Consensus.IsFutureBlock`. -/
def IsFutureBlock : Err → Bool
  | .futureBlock => true
  | _ => false

/-- Classifier `Consensus.IsParentNotFound`. -/
def IsParentNotFound : Err → Bool
  | .parentNotFound => true
  | _ => false

/-- The result of `tx.Signer()`: an address or an error. -/
inductive SignerResult where
  | recovered (addr : Address)
  | failure (err : Err)
deriving DecidableEq

/-- A transaction, as far as the block routine looks at it: `ID()` and `Signer()`. -/
structure Transaction where
  ID : Bytes32
  Signer : SignerResult
deriving DecidableEq

/-- A block header, with the accessors the block routine uses. -/
structure Header where
  ID : Bytes32
  ParentID : Bytes32
  Number : Nat
  Timestamp : Nat
  TotalScore : Nat
  GasLimit : Nat
  GasUsed : Nat
deriving DecidableEq

/-- A block: header and ordered transactions. -/
structure Block where
  Header : Header
  Transactions : List Transaction
deriving DecidableEq

/-- One output of a receipt, carrying its ordered logs. -/
structure Output where
  Logs : List TxLog
deriving DecidableEq

/-- A receipt: the ordered outputs of one transaction. -/
structure Receipt where
  Outputs : List Output
deriving DecidableEq

/-- Modelled from the spec: a persisted log as built by `Logdb.NewLog` (package
`logdb` is absent from the sources); it carries the block header, the index, the
transaction id, the recovered signer and the log itself. -/
structure LogdbLog where
  header : Header
  index : Nat
  txID : Bytes32
  txOrigin : Address
  log : TxLog
deriving DecidableEq

/-- Constructor `Logdb.NewLog(header, index, txID, signer, log)`. -/
def NewLog (header : Header) (index : Nat) (txID : Bytes32) (signer : Address)
    (log : TxLog) : LogdbLog :=
  { header := header, index := index, txID := txID, txOrigin := signer, log := log }

/-- The fork descriptor returned by `chain.AddBlock`; only `Branch` is read. -/
structure Fork where
  Branch : List Block
deriving DecidableEq

/-- The record `newBlockEvent` handed to `updateChain`. -/
structure newBlockEvent where
  Blk : Block
  Receipts : List Receipt
  Trunk : Bool
  IsSynced : Bool
deriving DecidableEq

/-- The record `packedEvent`; the ack channel is identified by a number. -/
structure packedEvent where
  blk : Block
  receipts : List Receipt
  ack : Nat
deriving DecidableEq

/-- The record `orphan`: the held block and the second at which it was stored. -/
structure orphan where
  blk : Block
  timestamp : Nat
deriving DecidableEq

/-- The inbound event `comm.NewBlockEvent`. -/
structure NewBlockEvent where
  Block : Block
  IsSynced : Bool
deriving DecidableEq

/-- Observable calls made by the consensus loop, in program order. -/
inductive Effect where
  | consent (blk : Block) (now : Nat)
  | sendBestBlock (blk : Block)
  | broadcastBlock (blk : Block)
  | txpoolAdd (tx : Transaction)
  | logdbInsert (logs : List LogdbLog) (forkIDs : List Bytes32)
  | ack (ch : Nat)
deriving DecidableEq

/-- How a Go call ended: `nil`, an error, or a run-time panic. -/
inductive Status where
  | ok
  | failed (err : Err)
  | crashed
deriving DecidableEq

/-- Why the construction of the log batch stopped early. -/
inductive Abort where
  | failed (err : Err)
  | crashed
deriving DecidableEq

/-- The conversion `uint64(x)` of a Go `int64` (two's complement). -/
def toUint64 (x : Int) : Nat := (x % (2 ^ 64 : Int)).toNat

/-- The wrap-around of a Go `int64` result (two's complement). -/
def toInt64 (x : Int) : Int := (x + 2 ^ 63) % (2 ^ 64 : Int) - 2 ^ 63

/-- The collaborators of the consensus loop as oracles over a world `σ`. -/
structure Component (σ : Type) where
  Now : σ → σ × Int
  Consent : σ → Block → Nat → σ × Except Err (Bool × List Receipt)
  IsTrunk : σ → Header → σ × Except Err Bool
  AddBlock : σ → Block → List Receipt → Bool → σ × Except Err Fork

/-! ## `updateChain` -/

/-- The body of `for _, output := range receipt.Outputs` (lines 278-290): for
each output, fetch `txs[i]`, recover its signer, append one log per entry of
`output.Logs` carrying the current `index`, then increment `index` (a `uint32`). -/
def outputsLoop (header : Header) (txs : List Transaction) (i : Nat) :
    List Output → Nat → List LogdbLog → Except Abort (Nat × List LogdbLog)
  | [], index, logs => .ok (index, logs)
  | output :: rest, index, logs =>
    match txs[i]? with
    | none => .error .crashed
    | some tx =>
      match tx.Signer with
      | .failure err => .error (.failed err)
      | .recovered signer =>
        outputsLoop header txs i rest ((index + 1) % U32)
          (logs ++ output.Logs.map (NewLog header index tx.ID signer))

/-- The loop `for i, receipt := range newBlk.Receipts` (lines 277-291). -/
def receiptsLoop (header : Header) (txs : List Transaction) :
    Nat → List Receipt → Nat → List LogdbLog → Except Abort (Nat × List LogdbLog)
  | _, [], index, logs => .ok (index, logs)
  | i, receipt :: rest, index, logs =>
    match outputsLoop header txs i receipt.Outputs index logs with
    | .error a => .error a
    | .ok (index1, logs1) => receiptsLoop header txs (i + 1) rest index1 logs1

/-- The log batch of a block (lines 274-291): `logs` starts empty, `index` at 0. -/
def buildLogs (blk : Block) (receipts : List Receipt) : Except Abort (List LogdbLog) :=
  match receiptsLoop blk.Header blk.Transactions 0 receipts 0 [] with
  | .error a => .error a
  | .ok (_, logs) => .ok logs

/-- The loop over `fork.Branch` (lines 292-298): the ids collected into
`forkIDs` and the `txpool.Add` calls, in program order. -/
def forkLoop : List Block → List Bytes32 × List Effect
  | [] => ([], [])
  | blk :: rest =>
    ((blk.Header.ID :: (forkLoop rest).1),
      blk.Transactions.map Effect.txpoolAdd ++ (forkLoop rest).2)

/-- The procedure `updateChain` (lines 244-303): the new world, the effects it
performed, and how it ended. -/
def updateChain {σ : Type} (c : Component σ) (s : σ) (newBlk : newBlockEvent) :
    σ × List Effect × Status :=
  match c.AddBlock s newBlk.Blk newBlk.Receipts newBlk.Trunk with
  | (s1, .error err) => (s1, [], .failed err)
  | (s1, .ok fork) =>
    if newBlk.Trunk then
      let sent := [Effect.sendBestBlock newBlk.Blk, Effect.broadcastBlock newBlk.Blk]
      match buildLogs newBlk.Blk newBlk.Receipts with
      | .error (.failed err) => (s1, sent, .failed err)
      | .error .crashed => (s1, sent, .crashed)
      | .ok logs =>
        (s1, sent ++ (forkLoop fork.Branch).2
          ++ [Effect.logdbInsert logs (forkLoop fork.Branch).1], .ok)
    else (s1, [], .ok)

/-! ## `consentLoop` -/

/-- Modelled from the spec: the future-block heap of package `minheap` (absent
from the sources), kept as the list of the blocks it holds. -/
abbrev BlockMinHeap := List Block

/-- Modelled from the spec: `futures.Push(blk)` adds the block to the heap. -/
def BlockMinHeap.Push (h : BlockMinHeap) (blk : Block) : BlockMinHeap := blk :: h

/-- The local variables of `consentLoop` that outlive one iteration (lines
64-65), the world of the collaborators, and the trace of effects. -/
structure LoopState (σ : Type) where
  world : σ
  futures : BlockMinHeap
  orphanMap : Bytes32 → Option orphan
  trace : List Effect

/-- The closure `updateChainFn` (lines 66-68). -/
def updateChainFn {σ : Type} (c : Component σ) (st : LoopState σ) (newBlk : newBlockEvent) :
    LoopState σ × Status :=
  match updateChain c st.world newBlk with
  | (w, effs, status) => ({ st with world := w, trace := st.trace ++ effs }, status)

/-- The closure `consentFn` (lines 69-90). -/
def consentFn {σ : Type} (c : Component σ) (st : LoopState σ) (blk : Block) (isSynced : Bool) :
    LoopState σ × Status :=
  match c.Now st.world with
  | (w1, t) =>
    match c.Consent w1 blk (toUint64 t) with
    | (w2, .error err) =>
      let st2 : LoopState σ :=
        { st with world := w2, trace := st.trace ++ [Effect.consent blk (toUint64 t)] }
      if IsFutureBlock err then
        ({ st2 with futures := st2.futures.Push blk }, .failed err)
      else if IsParentNotFound err then
        match st2.orphanMap blk.Header.ParentID with
        | some _ => (st2, .failed err)
        | none =>
          match c.Now w2 with
          | (w3, t2) =>
            ({ st2 with
                world := w3
                orphanMap := Function.update st2.orphanMap blk.Header.ParentID
                  (some { blk := blk, timestamp := toUint64 t2 }) }, .failed err)
      else (st2, .failed err)
    | (w2, .ok (trunk, receipts)) =>
      updateChainFn c
        { st with world := w2, trace := st.trace ++ [Effect.consent blk (toUint64 t)] }
        { Blk := blk, Trunk := trunk, Receipts := receipts, IsSynced := isSynced }

/-- The statement `delete(orphanMap, id)`. -/
def deleteOrphan {σ : Type} (st : LoopState σ) (id : Bytes32) : LoopState σ :=
  { st with orphanMap := Function.update st.orphanMap id none }

/-- The test `orphan.timestamp+300 >= uint64(time.Now().Unix())` (line 113), in
`uint64` arithmetic. -/
def withinWindow (o : orphan) (now : Nat) : Bool :=
  decide ((o.timestamp + 300) % U64 ≥ now)

/-- The branch `case ev := <-subChan` of `consentLoop` (lines 107-119). The
boolean is `false` when the process panicked inside the branch. -/
def inboundBranch {σ : Type} (c : Component σ) (st : LoopState σ) (ev : NewBlockEvent) :
    LoopState σ × Bool :=
  match consentFn c st ev.Block ev.IsSynced with
  | (st1, .failed _) => (st1, true)
  | (st1, .crashed) => (st1, false)
  | (st1, .ok) =>
    match st1.orphanMap ev.Block.Header.ID with
    | none => (st1, true)
    | some o =>
      match c.Now st1.world with
      | (w2, t) =>
        if withinWindow o (toUint64 t) then
          match consentFn c { st1 with world := w2 } o.blk false with
          | (st2, .failed err) =>
            if IsParentNotFound err then (st2, true)
            else (deleteOrphan st2 ev.Block.Header.ID, true)
          | (st2, .crashed) => (st2, false)
          | (st2, .ok) => (deleteOrphan st2 ev.Block.Header.ID, true)
        else (deleteOrphan { st1 with world := w2 } ev.Block.Header.ID, true)

/-- The branch `case packed := <-packedChan` of `consentLoop` (lines 120-129). -/
def packedBranch {σ : Type} (c : Component σ) (st : LoopState σ) (packed : packedEvent) :
    LoopState σ × Bool :=
  match c.IsTrunk st.world packed.blk.Header with
  | (w1, .ok trunk) =>
    match updateChainFn c { st with world := w1 }
        { Blk := packed.blk, Trunk := trunk, Receipts := packed.receipts, IsSynced := false } with
    | (st1, .crashed) => (st1, false)
    | (st1, _) => ({ st1 with trace := st1.trace ++ [Effect.ack packed.ack] }, true)
  | (w1, .error _) => ({ st with world := w1 }, true)

/-! ## `packLoop` -/

/-- The test of the timer branch (line 185),
`now >= ts && now < ts+thor.BlockInterval`, in `uint64` arithmetic. -/
def slotOpen (BlockInterval now ts : Nat) : Bool :=
  decide (now ≥ ts) && decide (now < (ts + BlockInterval) % U64)

/-- The collaborators of the packer loop as oracles over a world `ρ`.
`BlockInterval` stands for the constant `thor.BlockInterval`, which the sources
do not define. `Prepare` returns the four Go results `(ts, adopt, commit, err)`.
`pack` is the effect on the world of one call of the proposal procedure. -/
structure PackerEnv (ρ A C : Type) where
  BlockInterval : Nat
  Prepare : ρ → Header → Nat → ρ × (Nat × A × C × Option Err)
  pack : ρ → A → C → ρ

/-- The variables `ts`, `adopt`, `commit`, `bestBlock`, `err` of `packLoop`
(lines 156-162), the world, and the calls of `pack` made so far with the
`adopt` and `commit` they were given. -/
structure PackLoopState (ρ A C : Type) where
  world : ρ
  ts : Nat
  adopt : A
  commit : C
  bestBlock : Block
  err : Option Err
  packCalls : List (A × C)

/-- The branch `case bestBlock = <-bestBlockUpdated` (lines 177-182); `t` is the
value `time.Now().Unix()` read in the branch. The four results of `Prepare` are
assigned before `err` is looked at. -/
def bestBlockBranch {ρ A C : Type} (P : PackerEnv ρ A C) (st : PackLoopState ρ A C)
    (blk : Block) (t : Int) : PackLoopState ρ A C :=
  match P.Prepare st.world blk.Header (toUint64 t) with
  | (w1, (ts, adopt, commit, err)) =>
    { st with world := w1, ts := ts, adopt := adopt, commit := commit,
              bestBlock := blk, err := err }

/-- The branch `case <-timer.C` (lines 183-191); `t` is the value
`time.Now().Unix()` read in the branch. -/
def timerBranch {ρ A C : Type} (P : PackerEnv ρ A C) (st : PackLoopState ρ A C)
    (t : Int) : PackLoopState ρ A C :=
  if slotOpen P.BlockInterval (toUint64 t) st.ts then
    { st with world := P.pack st.world st.adopt st.commit, ts := 0,
              packCalls := st.packCalls ++ [(st.adopt, st.commit)] }
  else st

/-- A run of timer firings with no best-block update in between; the list gives
the wall-clock second read at each firing. -/
def timerFirings {ρ A C : Type} (P : PackerEnv ρ A C) :
    List Int → PackLoopState ρ A C → PackLoopState ρ A C
  | [], st => st
  | t :: rest, st => timerFirings P rest (timerBranch P st t)

/-! ## `pack` -/

/-- Modelled from the spec: the classified result of `adopt` (package `packer`
is absent from the sources); section 6 gives
`adopt_fn(tx) -> () | BadTx | KnownTx | GasLimitReached | other`. -/
inductive AdoptOutcome where
  | success
  | badTx
  | knownTx
  | gasLimitReached
  | other (code : Nat)
deriving DecidableEq

/-- Classifier `Packer.IsBadTx`. -/
def IsBadTx : AdoptOutcome → Bool
  | .badTx => true
  | _ => false

/-- Classifier `Packer.IsKnownTx`. -/
def IsKnownTx : AdoptOutcome → Bool
  | .knownTx => true
  | _ => false

/-- Classifier `Packer.IsGasLimitReached`. -/
def IsGasLimitReached : AdoptOutcome → Bool
  | .gasLimitReached => true
  | _ => false

/-- Observable calls made by `pack`, in program order. -/
inductive PackEffect where
  | adopt (tx : Transaction) (result : AdoptOutcome)
  | txpoolRemove (id : Bytes32)
  | commit
  | setTargetGasLimit (v : Nat)
  | packed (blk : Block) (receipts : List Receipt)
deriving DecidableEq

/-- The collaborators of `pack` as oracles over a world `ρ`.
`TolerableBlockPackingTime` stands for `uint64(thor.TolerableBlockPackingTime)`,
a constant the sources do not define. -/
structure PackEnv (ρ : Type) where
  TolerableBlockPackingTime : Nat
  MclockNow : ρ → ρ × Int
  Pending : ρ → ρ × List Transaction
  Remove : ρ → Bytes32 → ρ
  adopt : ρ → Transaction → ρ × AdoptOutcome
  commit : ρ → ρ × Except Err (Block × List Receipt)

/-- The closure `adoptTx` (lines 203-214), run over the list returned by
`txpool.Pending()`. -/
def adoptTx {ρ : Type} (E : PackEnv ρ) : ρ → List Transaction → ρ × List PackEffect
  | r, [] => (r, [])
  | r, tx :: rest =>
    match E.adopt r tx with
    | (r1, err) =>
      if IsBadTx err || IsKnownTx err then
        match adoptTx E (E.Remove r1 tx.ID) rest with
        | (r2, effs) => (r2, PackEffect.adopt tx err :: PackEffect.txpoolRemove tx.ID :: effs)
      else if IsGasLimitReached err then
        (r1, [PackEffect.adopt tx err])
      else
        match adoptTx E r1 rest with
        | (r2, effs) => (r2, PackEffect.adopt tx err :: effs)

/-- The value `uint64(thor.TolerableBlockPackingTime) * gasUsed / uint64(elapsed)`
(line 229), in `uint64` arithmetic. -/
def targetGasLimit (T gasUsed : Nat) (elapsed : Int) : Nat :=
  (T % U64 * gasUsed) % U64 / toUint64 elapsed

/-- Lines 223-241 of `pack`: what follows a successful `commit`. -/
def afterCommit (T : Nat) (elapsed : Int) (blk : Block) (receipts : List Receipt) :
    List PackEffect :=
  (if elapsed > 0 then
    if blk.Header.GasUsed > blk.Header.GasLimit / 3 then
      [PackEffect.setTargetGasLimit (targetGasLimit T blk.Header.GasUsed elapsed)]
    else []
  else []) ++ [PackEffect.packed blk receipts]

/-- The procedure `pack` (lines 195-242). -/
def pack {ρ : Type} (E : PackEnv ρ) (r : ρ) : ρ × List PackEffect :=
  match E.MclockNow r with
  | (r1, startTime) =>
    match E.Pending r1 with
    | (r2, pending) =>
      match adoptTx E r2 pending with
      | (r3, effs) =>
        match E.commit r3 with
        | (r4, .error _) => (r4, effs ++ [PackEffect.commit])
        | (r4, .ok (blk, receipts)) =>
          match E.MclockNow r4 with
          | (r5, endTime) =>
            (r5, effs ++ [PackEffect.commit]
              ++ afterCommit E.TolerableBlockPackingTime (toInt64 (endTime - startTime))
                  blk receipts)

/-! ## Projections of a trace and the words of the specification -/

/-- The batches handed to `logdb.Insert`, in program order. -/
def insertedBatches : List Effect → List (List LogdbLog × List Bytes32)
  | [] => []
  | Effect.logdbInsert logs forkIDs :: rest => (logs, forkIDs) :: insertedBatches rest
  | _ :: rest => insertedBatches rest

/-- The transactions handed to `txpool.Add`, in program order. -/
def mempoolAdds : List Effect → List Transaction
  | [] => []
  | Effect.txpoolAdd tx :: rest => tx :: mempoolAdds rest
  | _ :: rest => mempoolAdds rest

/-- The blocks handed to `consensus.Consent`, in program order. -/
def consentCalls : List Effect → List Block
  | [] => []
  | Effect.consent blk _ :: rest => blk :: consentCalls rest
  | _ :: rest => consentCalls rest

/-- The ack channels signalled, in program order. -/
def acksSignalled : List Effect → List Nat
  | [] => []
  | Effect.ack ch :: rest => ch :: acksSignalled rest
  | _ :: rest => acksSignalled rest

/-- The outputs of a list of receipts in receipt order, then output order, each
paired with the position of its receipt; the first receipt has position `i`. -/
def flatOutputs : Nat → List Receipt → List (Nat × Output)
  | _, [] => []
  | i, receipt :: rest => receipt.Outputs.map (fun o => (i, o)) ++ flatOutputs (i + 1) rest

/-- Whether `tx.Signer()` returns an address. -/
def signerRecoverable (tx : Transaction) : Bool :=
  match tx.Signer with
  | .recovered _ => true
  | .failure _ => false

/-- The address recovered for a transaction (0 when recovery fails). -/
def signerOf (tx : Transaction) : Address :=
  match tx.Signer with
  | .recovered a => a
  | .failure _ => 0

/-- The log batch in the words of the specification, with the index the code
assigns: outputs are numbered from `j` in receipt order then output order, and
every log of an output carries that output's number (as a `uint32`), the id and
signer of the transaction at the position of its receipt. -/
def expectedLogs (header : Header) (txs : List Transaction) :
    Nat → List (Nat × Output) → List LogdbLog
  | _, [] => []
  | j, (i, o) :: rest =>
    (match txs[i]? with
      | some tx => o.Logs.map (NewLog header (j % U32) tx.ID (signerOf tx))
      | none => []) ++ expectedLogs header txs (j + 1) rest

/-- The indexes of a block's logs in the words of the amended claim: outputs are
numbered from `j`, and an output contributes its number (as a `uint32`) once for
each of its logs. -/
def outputIndexes : Nat → List Output → List Nat
  | _, [] => []
  | j, o :: rest => List.replicate o.Logs.length (j % U32) ++ outputIndexes (j + 1) rest

/-- The claim that the k-th log of a batch carries index k. -/
def IndexedByPosition (logs : List LogdbLog) : Prop :=
  logs.map (fun l => l.index) = List.range logs.length

/-- A component whose every call succeeds: the clock reads 1000, `Consent` and
`IsTrunk` answer trunk, `AddBlock` returns the given fork. -/
def okComponent (fork : Fork) : Component Unit where
  Now := fun s => (s, 1000)
  Consent := fun s _ _ => (s, .ok (true, []))
  IsTrunk := fun s _ => (s, .ok true)
  AddBlock := fun s _ _ _ => (s, .ok fork)

/-- A header used in the examples. -/
def exHeader (id : Bytes32) : Header :=
  { ID := id, ParentID := id - 1, Number := id, Timestamp := 1000, TotalScore := id,
    GasLimit := 30, GasUsed := 20 }

/-- A transaction with a recoverable signer. -/
def exTx (id : Bytes32) : Transaction := { ID := id, Signer := .recovered (100 + id) }

/-- A trunk event: one transaction, one receipt with one output of two logs. -/
def twoLogsEvent : newBlockEvent :=
  { Blk := { Header := exHeader 5, Transactions := [exTx 1] },
    Receipts := [{ Outputs := [{ Logs := [11, 12] }] }],
    Trunk := true, IsSynced := false }

/-- A trunk event: two transactions; the first receipt has two outputs (one log,
then two logs), the second one output with one log. -/
def threeOutputsEvent : newBlockEvent :=
  { Blk := { Header := exHeader 6, Transactions := [exTx 1, exTx 2] },
    Receipts := [{ Outputs := [{ Logs := [11] }, { Logs := [12, 13] }] },
                 { Outputs := [{ Logs := [14] }] }],
    Trunk := true, IsSynced := false }

/-- A transaction whose signer cannot be recovered. -/
def badSignerTx (id : Bytes32) : Transaction := { ID := id, Signer := .failure (.other 1) }

/-- A trunk event whose only transaction has an unrecoverable signer and whose
receipt has one output. -/
def badSignerEvent : newBlockEvent :=
  { Blk := { Header := exHeader 7, Transactions := [badSignerTx 1] },
    Receipts := [{ Outputs := [{ Logs := [11] }] }],
    Trunk := true, IsSynced := false }

/-- A branch of two dropped blocks holding three transactions. -/
def exBranch : List Block :=
  [{ Header := exHeader 9, Transactions := [exTx 3, exTx 4] },
   { Header := exHeader 8, Transactions := [exTx 5] }]

/-- Whether `chain.AddBlock` succeeds for this event in this world. -/
def addBlockOk {σ : Type} (c : Component σ) (s : σ) (newBlk : newBlockEvent) : Bool :=
  match (c.AddBlock s newBlk.Blk newBlk.Receipts newBlk.Trunk).2 with
  | .ok _ => true
  | .error _ => false

/-- Whether the transaction at position `i` of the block exists and has a
recoverable signer. -/
def recoverableAt (txs : List Transaction) (i : Nat) : Bool :=
  match txs[i]? with
  | some tx => signerRecoverable tx
  | none => false

/-- The condition of the amended claim on the data of a block, read off the
transactions and receipts alone: every receipt that has at least one output
stands at the position of a transaction of the block whose signer is
recoverable. The first receipt has position `i`. -/
def outputsHaveSigners (txs : List Transaction) : Nat → List Receipt → Bool
  | _, [] => true
  | i, receipt :: rest =>
    (receipt.Outputs.isEmpty || recoverableAt txs i) && outputsHaveSigners txs (i + 1) rest

/-- Whether a Go call returned without error or panic. -/
def succeeded {α : Type} : Except Abort α → Bool
  | .ok _ => true
  | .error _ => false

/-- One record per chain update of a sequence: whether it was a trunk acceptance
(`AddBlock` succeeded and `Trunk` is true), whether every receipt with an
output has a transaction with a recoverable signer, and the effects the update
performed. A panic ends the sequence. -/
def chainUpdates {σ : Type} (c : Component σ) :
    σ → List newBlockEvent → List (Bool × Bool × List Effect)
  | _, [] => []
  | s, newBlk :: rest =>
    (addBlockOk c s newBlk && newBlk.Trunk,
      outputsHaveSigners newBlk.Blk.Transactions 0 newBlk.Receipts,
      (updateChain c s newBlk).2.1)
      :: (if (updateChain c s newBlk).2.2 = Status.crashed then []
          else chainUpdates c (updateChain c s newBlk).1 rest)

/-- The number of `logdb.Insert` calls over a sequence of chain updates. -/
def totalInserts (records : List (Bool × Bool × List Effect)) : Nat :=
  (records.map (fun r => (insertedBatches r.2.2).length)).sum

/-- The number of trunk acceptances over a sequence of chain updates. -/
def trunkAcceptances (records : List (Bool × Bool × List Effect)) : Nat :=
  (records.filter (fun r => r.1)).length

/-- The number of trunk acceptances in which every receipt with an output has a
transaction with a recoverable signer. -/
def completedTrunkAcceptances (records : List (Bool × Bool × List Effect)) : Nat :=
  (records.filter (fun r => r.1 && r.2.1)).length

/-- The loop state with no held block and an empty trace. -/
def emptyLoop : LoopState Unit :=
  { world := (), futures := [], orphanMap := fun _ => none, trace := [] }

/-- A block without transactions, with the given id and parent id. -/
def plainBlock (id parent : Bytes32) : Block :=
  { Header := { ID := id, ParentID := parent, Number := id, Timestamp := 1000,
                TotalScore := id, GasLimit := 30, GasUsed := 0 },
    Transactions := [] }

/-- The loop state holding one orphan: block 11, whose parent is block 10,
stored at second `stored`. -/
def oneOrphan (stored : Nat) : LoopState Unit :=
  { emptyLoop with
    orphanMap := fun k => if k = 10 then some { blk := plainBlock 11 10, timestamp := stored }
                          else none }

/-- A component whose clock reads `now`, whose `Consent` accepts block 10 as a
side block and answers `replay` for every other block, and whose `AddBlock`
succeeds without a fork. -/
def replayComponent (now : Int) (replay : Except Err (Bool × List Receipt)) : Component Unit where
  Now := fun s => (s, now)
  Consent := fun s blk _ => (s, if blk.Header.ID = 10 then .ok (false, []) else replay)
  IsTrunk := fun s _ => (s, .ok true)
  AddBlock := fun s _ _ _ => (s, .ok ⟨[]⟩)

/-- A component whose `IsTrunk` fails. -/
def trunkErrComponent : Component Unit where
  Now := fun s => (s, 1000)
  Consent := fun s _ _ => (s, .ok (true, []))
  IsTrunk := fun s _ => (s, .error (.other 2))
  AddBlock := fun s _ _ _ => (s, .ok ⟨[]⟩)

/-- A packed event carrying block 12 and ack channel 1. -/
def exPacked : packedEvent := { blk := plainBlock 12 11, receipts := [], ack := 1 }

/-- A component over a clock script: the world is the list of the wall-clock
seconds still to be read; `Consent` accepts block 10 as a side block and
answers parent-not-found for every other block; `AddBlock` succeeds without a
fork. -/
def scriptedComponent : Component (List Int) where
  Now := fun s => (s.tail, s.headD 0)
  Consent := fun s blk _ =>
    (s, if blk.Header.ID = 10 then .ok (false, []) else .error .parentNotFound)
  IsTrunk := fun s _ => (s, .ok true)
  AddBlock := fun s _ _ _ => (s, .ok ⟨[]⟩)

/-- The loop state with no held block, an empty trace and the given clock
script. -/
def scriptedLoop (clock : List Int) : LoopState (List Int) :=
  { world := clock, futures := [], orphanMap := fun _ => none, trace := [] }

/-- The loop state after block 11 (parent 10) arrived first in `scriptedLoop`. -/
def afterOrphan (clock : List Int) : LoopState (List Int) :=
  (inboundBranch scriptedComponent (scriptedLoop clock)
    { Block := plainBlock 11 10, IsSynced := true }).1

/-- The calls of `adopt` recorded in a trace, with their outcomes, in program
order. -/
def adoptCallsOf : List PackEffect → List (Transaction × AdoptOutcome)
  | [] => []
  | PackEffect.adopt tx result :: rest => (tx, result) :: adoptCallsOf rest
  | _ :: rest => adoptCallsOf rest

/-- The ids handed to `txpool.Remove`, in program order. -/
def removals : List PackEffect → List Bytes32
  | [] => []
  | PackEffect.txpoolRemove id :: rest => id :: removals rest
  | _ :: rest => removals rest

/-- The values handed to `packer.SetTargetGasLimit`, in program order. -/
def targetUpdates : List PackEffect → List Nat
  | [] => []
  | PackEffect.setTargetGasLimit v :: rest => v :: targetUpdates rest
  | _ :: rest => targetUpdates rest

/-- The packed events sent on `packedChan`, in program order. -/
def packedEvents : List PackEffect → List (Block × List Receipt)
  | [] => []
  | PackEffect.packed blk receipts :: rest => (blk, receipts) :: packedEvents rest
  | _ :: rest => packedEvents rest

/-- The world after one transaction was offered to `adopt` in world `r`, in the
words of the specification: the world `adopt` leaves, and, when the outcome is
bad or known-already, the mempool's `Remove` applied to it. -/
def offered {ρ : Type} (E : PackEnv ρ) (r : ρ) (tx : Transaction) : ρ :=
  if (E.adopt r tx).2 = AdoptOutcome.badTx ∨ (E.adopt r tx).2 = AdoptOutcome.knownTx then
    E.Remove (E.adopt r tx).1 tx.ID
  else (E.adopt r tx).1

/-- The visits of the drain in the words of the specification: the pending
transactions in list order, each with the outcome the `adopt` oracle gives it
in the world left by the transactions before it, up to and including the first
one whose outcome is gas-limit-reached. -/
def drainVisits {ρ : Type} (E : PackEnv ρ) : ρ → List Transaction →
    List (Transaction × AdoptOutcome)
  | _, [] => []
  | r, tx :: rest =>
    (tx, (E.adopt r tx).2) ::
      (if (E.adopt r tx).2 = AdoptOutcome.gasLimitReached then []
        else drainVisits E (offered E r tx) rest)

/-- The world the drain leaves, in the words of the specification. -/
def drainWorld {ρ : Type} (E : PackEnv ρ) : ρ → List Transaction → ρ
  | r, [] => r
  | r, tx :: rest =>
    if (E.adopt r tx).2 = AdoptOutcome.gasLimitReached then (E.adopt r tx).1
    else drainWorld E (offered E r tx) rest

/-- An `adopt` oracle over a counter that finds every transaction bad and
counts its calls; `Remove` adds 100 to the counter. -/
def allBadEnv : PackEnv Nat where
  TolerableBlockPackingTime := 0
  MclockNow := fun w => (w, 0)
  Pending := fun w => (w, [])
  Remove := fun w _ => w + 100
  adopt := fun w _ => (w + 1, .badTx)
  commit := fun w => (w, .error (.other 0))

/-- The result of the call `commit(privateKey)` made by `pack` (line 218), with
the world it leaves. -/
def packCommit {ρ : Type} (E : PackEnv ρ) (r : ρ) : ρ × Except Err (Block × List Receipt) :=
  E.commit (adoptTx E (E.Pending (E.MclockNow r).1).1 (E.Pending (E.MclockNow r).1).2).1

/-- The value `elapsed := mclock.Now() - startTime` computed by `pack` after a
successful `commit` (line 223), an `int64`. -/
def packElapsed {ρ : Type} (E : PackEnv ρ) (r : ρ) : Int :=
  toInt64 ((E.MclockNow (packCommit E r).1).2 - (E.MclockNow r).2)

/-- The claim that the value handed to `SetTargetGasLimit` is the exact quotient
`TolerableBlockPackingTime × gas_used / elapsed`. -/
def TargetIsExact (T gasUsed : Nat) (elapsed : Int) (v : Nat) : Prop :=
  v = T * gasUsed / elapsed.toNat

/-- A packer environment over unit slots whose `Prepare` fails, returning zero
values next to the error; `BlockInterval` is 10. -/
def failingPrepare : PackerEnv Unit Nat Nat where
  BlockInterval := 10
  Prepare := fun w _ _ => (w, (0, 0, 0, some (.other 3)))
  pack := fun w _ _ => w

/-- Packer slots armed for second `ts`, holding `adopt` 5 and `commit` 6. -/
def armedAt (ts : Nat) : PackLoopState Unit Nat Nat :=
  { world := (), ts := ts, adopt := 5, commit := 6, bestBlock := plainBlock 10 9,
    err := none, packCalls := [] }

/-- A `pack` environment over a counter: the monotonic clock reads the counter
and advances it, the pending list is `pending`, `adopt` answers `outcome tx`,
`commit` returns `result`, and `TolerableBlockPackingTime` is `T`. -/
def counterEnv (T : Nat) (pending : List Transaction) (outcome : Transaction → AdoptOutcome)
    (result : Except Err (Block × List Receipt)) : PackEnv Nat where
  TolerableBlockPackingTime := T
  MclockNow := fun w => (w + 1, (w : Int))
  Pending := fun w => (w, pending)
  Remove := fun w _ => w
  adopt := fun w tx => (w, outcome tx)
  commit := fun w => (w, result)

/-- A block without transactions with the given gas limit and gas used. -/
def gasBlock (gasLimit gasUsed : Nat) : Block :=
  { Header := { ID := 20, ParentID := 19, Number := 20, Timestamp := 1000, TotalScore := 20,
                GasLimit := gasLimit, GasUsed := gasUsed },
    Transactions := [] }

/-- Outcomes used in the examples: transaction 1 is bad, 2 succeeds, 3 reaches
the gas limit, 4 is known already, every other one succeeds. -/
def exOutcome (tx : Transaction) : AdoptOutcome :=
  if tx.ID = 1 then .badTx
  else if tx.ID = 3 then .gasLimitReached
  else if tx.ID = 4 then .knownTx
  else .success
/-! ## Theorems -/

/-! ### Log batch -/

theorem u32_succ (j : Nat) : (j % U32 + 1) % U32 = (j + 1) % U32 := by
  unfold U32
  omega

theorem recoverable_signer (tx : Transaction) (h : signerRecoverable tx = true) :
    ∃ a, tx.Signer = .recovered a := by
  unfold signerRecoverable at h
  cases hs : tx.Signer with
  | recovered a => exact ⟨a, rfl⟩
  | failure e => simp [hs] at h

theorem expectedLogs_append (header : Header) (txs : List Transaction) :
    ∀ (xs ys : List (Nat × Output)) (j : Nat),
      expectedLogs header txs j (xs ++ ys)
        = expectedLogs header txs j xs ++ expectedLogs header txs (j + xs.length) ys := by
  intro xs
  induction xs with
  | nil => intro ys j; simp [expectedLogs]
  | cons x rest ih =>
    intro ys j
    obtain ⟨i, o⟩ := x
    rw [List.cons_append]
    simp only [expectedLogs, List.length_cons, List.append_assoc]
    rw [ih, show j + 1 + rest.length = j + (rest.length + 1) by omega]

theorem outputsLoop_recovered (header : Header) (txs : List Transaction) (i : Nat)
    (tx : Transaction) (a : Address) (htx : txs[i]? = some tx)
    (hs : tx.Signer = .recovered a) :
    ∀ (outs : List Output) (j : Nat) (logs : List LogdbLog),
      outputsLoop header txs i outs (j % U32) logs
        = .ok ((j + outs.length) % U32,
            logs ++ expectedLogs header txs j (outs.map (fun o => (i, o)))) := by
  intro outs
  induction outs with
  | nil => intro j logs; simp [outputsLoop, expectedLogs]
  | cons o rest ih =>
    intro j logs
    have hsg : signerOf tx = a := by simp [signerOf, hs]
    simp only [outputsLoop, htx, hs, u32_succ, ih, List.map_cons, expectedLogs, hsg,
      List.length_cons, List.append_assoc]
    rw [show j + 1 + rest.length = j + (rest.length + 1) by omega]

theorem receiptsLoop_recovered (header : Header) (txs : List Transaction)
    (hsig : ∀ tx ∈ txs, signerRecoverable tx = true) :
    ∀ (receipts : List Receipt) (i j : Nat) (logs : List LogdbLog),
      i + receipts.length ≤ txs.length →
      ∃ index, receiptsLoop header txs i receipts (j % U32) logs
        = .ok (index, logs ++ expectedLogs header txs j (flatOutputs i receipts)) := by
  intro receipts
  induction receipts with
  | nil =>
    intro i j logs _
    exact ⟨j % U32, by simp [receiptsLoop, flatOutputs, expectedLogs]⟩
  | cons r rest ih =>
    intro i j logs hlen
    simp only [List.length_cons] at hlen
    have hi : i < txs.length := by omega
    have htx : txs[i]? = some (txs.get ⟨i, hi⟩) := by simp [List.getElem?_eq_getElem hi]
    obtain ⟨a, ha⟩ := recoverable_signer _ (hsig _ (List.get_mem txs i hi))
    obtain ⟨index, hrest⟩ := ih (i + 1) (j + r.Outputs.length)
      (logs ++ expectedLogs header txs j (r.Outputs.map (fun o => (i, o)))) (by omega)
    refine ⟨index, ?_⟩
    simp only [receiptsLoop, outputsLoop_recovered header txs i _ a htx ha, hrest, flatOutputs,
      expectedLogs_append, List.length_map, List.append_assoc]

theorem buildLogs_recovered (blk : Block) (receipts : List Receipt)
    (hlen : receipts.length ≤ blk.Transactions.length)
    (hsig : ∀ tx ∈ blk.Transactions, signerRecoverable tx = true) :
    buildLogs blk receipts
      = .ok (expectedLogs blk.Header blk.Transactions 0 (flatOutputs 0 receipts)) := by
  obtain ⟨index, h⟩ := receiptsLoop_recovered blk.Header blk.Transactions hsig receipts 0 0 []
    (by omega)
  simp only [Nat.zero_mod, List.nil_append] at h
  simp [buildLogs, h]

/-- The trace of a trunk update that runs to its end. -/
theorem updateChain_trunk {σ : Type} (c : Component σ) (s s1 : σ) (newBlk : newBlockEvent)
    (fork : Fork)
    (hadd : c.AddBlock s newBlk.Blk newBlk.Receipts newBlk.Trunk = (s1, .ok fork))
    (htrunk : newBlk.Trunk = true)
    (hlen : newBlk.Receipts.length ≤ newBlk.Blk.Transactions.length)
    (hsig : ∀ tx ∈ newBlk.Blk.Transactions, signerRecoverable tx = true) :
    updateChain c s newBlk
      = (s1, [Effect.sendBestBlock newBlk.Blk, Effect.broadcastBlock newBlk.Blk]
            ++ (forkLoop fork.Branch).2
            ++ [Effect.logdbInsert
                (expectedLogs newBlk.Blk.Header newBlk.Blk.Transactions 0
                  (flatOutputs 0 newBlk.Receipts))
                (forkLoop fork.Branch).1], .ok) := by
  unfold updateChain
  rw [hadd]
  simp [htrunk, buildLogs_recovered _ _ hlen hsig]

theorem insertedBatches_append (xs ys : List Effect) :
    insertedBatches (xs ++ ys) = insertedBatches xs ++ insertedBatches ys := by
  induction xs with
  | nil => rfl
  | cons e rest ih => cases e <;> simp [insertedBatches, ih]

theorem mempoolAdds_append (xs ys : List Effect) :
    mempoolAdds (xs ++ ys) = mempoolAdds xs ++ mempoolAdds ys := by
  induction xs with
  | nil => rfl
  | cons e rest ih => cases e <;> simp [mempoolAdds, ih]

theorem forkLoop_ids (branch : List Block) :
    (forkLoop branch).1 = branch.map (fun b => b.Header.ID) := by
  induction branch with
  | nil => rfl
  | cons b rest ih => simp [forkLoop, ih]

theorem mempoolAdds_txpoolAdd (txs : List Transaction) :
    mempoolAdds (txs.map Effect.txpoolAdd) = txs := by
  induction txs with
  | nil => rfl
  | cons t rest ih => simp [mempoolAdds, ih]

theorem insertedBatches_txpoolAdd (txs : List Transaction) :
    insertedBatches (txs.map Effect.txpoolAdd) = [] := by
  induction txs with
  | nil => rfl
  | cons t rest ih => simp [insertedBatches, ih]

theorem forkLoop_adds (branch : List Block) :
    mempoolAdds (forkLoop branch).2 = (branch.map (fun b => b.Transactions)).flatten := by
  induction branch with
  | nil => rfl
  | cons b rest ih => simp [forkLoop, mempoolAdds_append, mempoolAdds_txpoolAdd, ih]

theorem forkLoop_inserts (branch : List Block) :
    insertedBatches (forkLoop branch).2 = [] := by
  induction branch with
  | nil => rfl
  | cons b rest ih => simp [forkLoop, insertedBatches_append, insertedBatches_txpoolAdd, ih]

theorem expectedLogs_index_bounds (header : Header) (txs : List Transaction) :
    ∀ (outs : List (Nat × Output)) (j : Nat), j + outs.length ≤ U32 →
      ∀ l ∈ expectedLogs header txs j outs, j ≤ l.index ∧ l.index < j + outs.length := by
  intro outs
  induction outs with
  | nil => intro j _ l hl; simp [expectedLogs] at hl
  | cons x rest ih =>
    intro j hj l hl
    obtain ⟨i, o⟩ := x
    simp only [List.length_cons] at hj ⊢
    simp only [expectedLogs, List.mem_append] at hl
    rcases hl with hl | hl
    · have hjm : j % U32 = j := Nat.mod_eq_of_lt (by omega)
      cases htx : txs[i]? with
      | none => simp [htx] at hl
      | some tx =>
        simp only [htx, List.mem_map] at hl
        obtain ⟨x, _, rfl⟩ := hl
        simp [NewLog, hjm]
    · have := ih (j + 1) (by omega) l hl
      omega

theorem expectedLogs_sorted (header : Header) (txs : List Transaction) :
    ∀ (outs : List (Nat × Output)) (j : Nat), j + outs.length ≤ U32 →
      List.Pairwise (fun a b => a.index ≤ b.index) (expectedLogs header txs j outs) := by
  intro outs
  induction outs with
  | nil => intro j _; simp [expectedLogs]
  | cons x rest ih =>
    intro j hj
    obtain ⟨i, o⟩ := x
    simp only [List.length_cons] at hj
    simp only [expectedLogs]
    have hjm : j % U32 = j := Nat.mod_eq_of_lt (by omega)
    rw [List.pairwise_append]
    refine ⟨?_, ih (j + 1) (by omega), ?_⟩
    · cases htx : txs[i]? with
      | none => simp
      | some tx =>
        simp only [List.pairwise_map, NewLog, le_refl]
        exact List.pairwise_of_forall (fun _ _ => trivial)
    · intro a ha b hb
      have hb2 := (expectedLogs_index_bounds header txs rest (j + 1) (by omega) b hb).1
      cases htx : txs[i]? with
      | none => simp [htx] at ha
      | some tx =>
        simp only [htx, List.mem_map] at ha
        obtain ⟨x, _, rfl⟩ := ha
        simp only [NewLog, hjm]
        omega

theorem flatOutputs_outputs : ∀ (receipts : List Receipt) (k : Nat),
    (flatOutputs k receipts).map Prod.snd = (receipts.map (fun r => r.Outputs)).flatten := by
  intro receipts
  induction receipts with
  | nil => intro k; rfl
  | cons r rest ih =>
    intro k
    simp [flatOutputs, ih, Function.comp_def]

theorem flatOutputs_position : ∀ (receipts : List Receipt) (k : Nat),
    ∀ p ∈ flatOutputs k receipts, p.1 < k + receipts.length := by
  intro receipts
  induction receipts with
  | nil => intro k p hp; simp [flatOutputs] at hp
  | cons r rest ih =>
    intro k p hp
    simp only [flatOutputs, List.mem_append, List.mem_map] at hp
    simp only [List.length_cons]
    rcases hp with ⟨o, _, rfl⟩ | hp
    · simp
    · have := ih (k + 1) p hp
      omega

theorem expectedLogs_payload (header : Header) (txs : List Transaction) :
    ∀ (outs : List (Nat × Output)) (j : Nat), (∀ p ∈ outs, p.1 < txs.length) →
      (expectedLogs header txs j outs).map (fun l => l.log)
        = ((outs.map Prod.snd).map (fun o => o.Logs)).flatten := by
  intro outs
  induction outs with
  | nil => intro j _; rfl
  | cons x rest ih =>
    intro j hv
    obtain ⟨i, o⟩ := x
    have hi : i < txs.length := hv (i, o) (List.mem_cons_self _ _)
    have hrest := ih (j + 1) (fun p hp => hv p (List.mem_cons_of_mem _ hp))
    simp only [expectedLogs, List.getElem?_eq_getElem hi, List.map_append, hrest, List.map_cons,
      List.flatten_cons, List.map_map]
    congr 1
    simp [Function.comp_def, NewLog]

theorem expectedLogs_indexes (header : Header) (txs : List Transaction) :
    ∀ (outs : List (Nat × Output)) (j : Nat), (∀ p ∈ outs, p.1 < txs.length) →
      (expectedLogs header txs j outs).map (fun l => l.index)
        = outputIndexes j (outs.map Prod.snd) := by
  intro outs
  induction outs with
  | nil => intro j _; rfl
  | cons x rest ih =>
    intro j hv
    obtain ⟨i, o⟩ := x
    have hi : i < txs.length := hv (i, o) (List.mem_cons_self _ _)
    have hrest := ih (j + 1) (fun p hp => hv p (List.mem_cons_of_mem _ hp))
    simp only [expectedLogs, List.getElem?_eq_getElem hi, List.map_append, hrest, List.map_cons,
      outputIndexes, List.map_map]
    congr 1
    simp [Function.comp_def, NewLog, List.eq_replicate_iff]

/-- C1 (amended): in a trunk chain update (`AddBlock` succeeds, `Trunk` is true,
one receipt per transaction at most, every signer recoverable) the single batch
handed to the log database lists the logs in receipt order, then output order,
then log order, and every log of the j-th output of the block (outputs counted
from 0 across the receipts) carries index `j mod 2^32`: the index advances once
per output, not once per log. For a block of at most 2^32 outputs the indexes
are therefore non-decreasing in that order. -/
theorem C1_log_index_is_output_ordinal {σ : Type} (c : Component σ) (s s1 : σ)
    (newBlk : newBlockEvent) (fork : Fork)
    (hadd : c.AddBlock s newBlk.Blk newBlk.Receipts newBlk.Trunk = (s1, .ok fork))
    (htrunk : newBlk.Trunk = true)
    (hlen : newBlk.Receipts.length ≤ newBlk.Blk.Transactions.length)
    (hsig : ∀ tx ∈ newBlk.Blk.Transactions, signerRecoverable tx = true) :
    (insertedBatches (updateChain c s newBlk).2.1).map Prod.fst
        = [expectedLogs newBlk.Blk.Header newBlk.Blk.Transactions 0
            (flatOutputs 0 newBlk.Receipts)]
    ∧ (expectedLogs newBlk.Blk.Header newBlk.Blk.Transactions 0
          (flatOutputs 0 newBlk.Receipts)).map (fun l => l.log)
        = (((newBlk.Receipts.map (fun r => r.Outputs)).flatten).map (fun o => o.Logs)).flatten
    ∧ (expectedLogs newBlk.Blk.Header newBlk.Blk.Transactions 0
          (flatOutputs 0 newBlk.Receipts)).map (fun l => l.index)
        = outputIndexes 0 ((newBlk.Receipts.map (fun r => r.Outputs)).flatten)
    ∧ ((flatOutputs 0 newBlk.Receipts).length ≤ U32 →
        List.Pairwise (fun a b => a.index ≤ b.index)
          (expectedLogs newBlk.Blk.Header newBlk.Blk.Transactions 0
            (flatOutputs 0 newBlk.Receipts))) := by
  have hv : ∀ p ∈ flatOutputs 0 newBlk.Receipts, p.1 < newBlk.Blk.Transactions.length := by
    intro p hp
    have := flatOutputs_position newBlk.Receipts 0 p hp
    omega
  refine ⟨?_, ?_, ?_, ?_⟩
  · rw [updateChain_trunk c s s1 newBlk fork hadd htrunk hlen hsig]
    simp [insertedBatches_append, insertedBatches, forkLoop_inserts]
  · rw [expectedLogs_payload _ _ _ 0 hv, flatOutputs_outputs]
  · rw [expectedLogs_indexes _ _ _ 0 hv, flatOutputs_outputs]
  · intro hb
    exact expectedLogs_sorted _ _ _ 0 (by omega)

/-- C1 (witness): the amended statement at a block of two transactions whose
receipts hold three outputs with one, two and one logs; the four logs are
stored with the indexes 0, 1, 1, 2. -/
theorem C1_log_index_witness :
    (insertedBatches (updateChain (okComponent ⟨[]⟩) () threeOutputsEvent).2.1).map Prod.fst
        = [expectedLogs threeOutputsEvent.Blk.Header threeOutputsEvent.Blk.Transactions 0
            (flatOutputs 0 threeOutputsEvent.Receipts)]
    ∧ (expectedLogs threeOutputsEvent.Blk.Header threeOutputsEvent.Blk.Transactions 0
          (flatOutputs 0 threeOutputsEvent.Receipts)).map (fun l => l.index) = [0, 1, 1, 2] :=
  ⟨(C1_log_index_is_output_ordinal (okComponent ⟨[]⟩) () () threeOutputsEvent ⟨[]⟩ rfl rfl
      (by decide) (by decide)).1, by decide⟩

/-- C1 (counterexample): a trunk block whose single output holds two logs; both
logs are stored with index 0, so the second log does not carry index 1 and the
two logs share an index. -/
theorem C1_logs_of_one_output_share_index :
    insertedBatches (updateChain (okComponent ⟨[]⟩) () twoLogsEvent).2.1
        = [([NewLog (exHeader 5) 0 1 101 11, NewLog (exHeader 5) 0 1 101 12], [])]
    ∧ ¬ IndexedByPosition [NewLog (exHeader 5) 0 1 101 11, NewLog (exHeader 5) 0 1 101 12] := by
  constructor
  · rfl
  · unfold IndexedByPosition
    decide

/-! ### Fork bookkeeping -/

/-- C4: in a trunk chain update whose `AddBlock` returns a fork with branch
`[b1, ..., bn]` (signers recoverable, one receipt per transaction at most), the
log database receives a single insert whose fork ids are the ids of
`b1, ..., bn` in branch order, and `txpool.Add` is called once for each
transaction of each branch block, in branch order then transaction order; with
an empty branch the fork ids are empty and `txpool.Add` is not called. -/
theorem C4_fork_ids_and_mempool {σ : Type} (c : Component σ) (s s1 : σ)
    (newBlk : newBlockEvent) (fork : Fork)
    (hadd : c.AddBlock s newBlk.Blk newBlk.Receipts newBlk.Trunk = (s1, .ok fork))
    (htrunk : newBlk.Trunk = true)
    (hlen : newBlk.Receipts.length ≤ newBlk.Blk.Transactions.length)
    (hsig : ∀ tx ∈ newBlk.Blk.Transactions, signerRecoverable tx = true) :
    (insertedBatches (updateChain c s newBlk).2.1).map Prod.snd
        = [fork.Branch.map (fun b => b.Header.ID)]
    ∧ mempoolAdds (updateChain c s newBlk).2.1
        = (fork.Branch.map (fun b => b.Transactions)).flatten
    ∧ (fork.Branch = [] →
        (insertedBatches (updateChain c s newBlk).2.1).map Prod.snd = [[]]
        ∧ mempoolAdds (updateChain c s newBlk).2.1 = []) := by
  rw [updateChain_trunk c s s1 newBlk fork hadd htrunk hlen hsig]
  have h1 : (insertedBatches
      ([Effect.sendBestBlock newBlk.Blk, Effect.broadcastBlock newBlk.Blk]
        ++ (forkLoop fork.Branch).2
        ++ [Effect.logdbInsert
              (expectedLogs newBlk.Blk.Header newBlk.Blk.Transactions 0
                (flatOutputs 0 newBlk.Receipts))
              (forkLoop fork.Branch).1])).map Prod.snd
      = [fork.Branch.map (fun b => b.Header.ID)] := by
    simp [insertedBatches_append, insertedBatches, forkLoop_inserts, forkLoop_ids]
  have h2 : mempoolAdds
      ([Effect.sendBestBlock newBlk.Blk, Effect.broadcastBlock newBlk.Blk]
        ++ (forkLoop fork.Branch).2
        ++ [Effect.logdbInsert
              (expectedLogs newBlk.Blk.Header newBlk.Blk.Transactions 0
                (flatOutputs 0 newBlk.Receipts))
              (forkLoop fork.Branch).1])
      = (fork.Branch.map (fun b => b.Transactions)).flatten := by
    simp [mempoolAdds_append, mempoolAdds, forkLoop_adds]
  refine ⟨h1, h2, ?_⟩
  intro hempty
  rw [h1, h2, hempty]
  simp

/-- C4 (witness): a trunk update whose fork drops two blocks holding three
transactions. -/
theorem C4_fork_ids_and_mempool_witness :
    (insertedBatches (updateChain (okComponent ⟨exBranch⟩) () threeOutputsEvent).2.1).map
        Prod.snd = [exBranch.map (fun b => b.Header.ID)]
    ∧ mempoolAdds (updateChain (okComponent ⟨exBranch⟩) () threeOutputsEvent).2.1
        = (exBranch.map (fun b => b.Transactions)).flatten
    ∧ (exBranch = [] →
        (insertedBatches (updateChain (okComponent ⟨exBranch⟩) () threeOutputsEvent).2.1).map
          Prod.snd = [[]]
        ∧ mempoolAdds (updateChain (okComponent ⟨exBranch⟩) () threeOutputsEvent).2.1 = []) :=
  C4_fork_ids_and_mempool (okComponent ⟨exBranch⟩) () () threeOutputsEvent ⟨exBranch⟩ rfl rfl
    (by decide) (by decide)

/-! ### Number of log-database inserts -/

theorem outputsLoop_succeeded (header : Header) (txs : List Transaction) (i : Nat) :
    ∀ (outs : List Output) (index : Nat) (logs : List LogdbLog),
      succeeded (outputsLoop header txs i outs index logs)
        = (outs.isEmpty || recoverableAt txs i) := by
  intro outs
  induction outs with
  | nil => intro index logs; rfl
  | cons o rest ih =>
    intro index logs
    unfold outputsLoop recoverableAt
    cases htx : txs[i]? with
    | none => rfl
    | some tx =>
      cases hs : tx.Signer with
      | failure e => simp [succeeded, signerRecoverable, hs]
      | recovered a =>
        simp only [ih, recoverableAt, htx, signerRecoverable, hs, Bool.or_true,
          List.isEmpty_cons, Bool.false_or]

theorem receiptsLoop_succeeded (header : Header) (txs : List Transaction) :
    ∀ (receipts : List Receipt) (i index : Nat) (logs : List LogdbLog),
      succeeded (receiptsLoop header txs i receipts index logs)
        = outputsHaveSigners txs i receipts := by
  intro receipts
  induction receipts with
  | nil => intro i index logs; rfl
  | cons r rest ih =>
    intro i index logs
    have hout := outputsLoop_succeeded header txs i r.Outputs index logs
    unfold receiptsLoop outputsHaveSigners
    cases hrun : outputsLoop header txs i r.Outputs index logs with
    | error a =>
      rw [hrun] at hout
      simp only [succeeded] at hout
      simp [succeeded, ← hout]
    | ok v =>
      obtain ⟨index1, logs1⟩ := v
      rw [hrun] at hout
      simp only [succeeded] at hout
      simp [← hout, ih]

/-- The log batch of a block can be built exactly when every receipt that has
an output has a transaction with a recoverable signer. -/
theorem buildLogs_succeeded (blk : Block) (receipts : List Receipt) :
    succeeded (buildLogs blk receipts) = outputsHaveSigners blk.Transactions 0 receipts := by
  have h := receiptsLoop_succeeded blk.Header blk.Transactions receipts 0 0 []
  unfold buildLogs
  cases hrun : receiptsLoop blk.Header blk.Transactions 0 receipts 0 [] with
  | error a => rw [hrun] at h; simpa [succeeded] using h
  | ok v => obtain ⟨index, logs⟩ := v; rw [hrun] at h; simpa [succeeded] using h

theorem updateChain_insert_count {σ : Type} (c : Component σ) (s : σ) (newBlk : newBlockEvent) :
    (insertedBatches (updateChain c s newBlk).2.1).length
      = if (addBlockOk c s newBlk && newBlk.Trunk)
            && outputsHaveSigners newBlk.Blk.Transactions 0 newBlk.Receipts then 1 else 0 := by
  rw [← buildLogs_succeeded]
  unfold updateChain addBlockOk
  rcases hadd : c.AddBlock s newBlk.Blk newBlk.Receipts newBlk.Trunk with ⟨s1, r⟩
  cases r with
  | error e => simp [insertedBatches]
  | ok fork =>
    cases htrunk : newBlk.Trunk with
    | false => simp [insertedBatches]
    | true =>
      cases hb : buildLogs newBlk.Blk newBlk.Receipts with
      | error a => cases a <;> simp [insertedBatches, succeeded]
      | ok logs => simp [insertedBatches, insertedBatches_append, forkLoop_inserts, succeeded]

theorem filter_length_le_of_imp {α : Type} (p q : α → Bool) (h : ∀ x, p x = true → q x = true) :
    ∀ xs : List α, (xs.filter p).length ≤ (xs.filter q).length := by
  intro xs
  induction xs with
  | nil => simp
  | cons x rest ih =>
    by_cases hp : p x = true
    · simp [List.filter_cons, hp, h x hp, ih]
    · by_cases hq : q x = true
      · simp [List.filter_cons, hp, hq]; omega
      · simp [List.filter_cons, hp, hq, ih]

/-- C5 (amended): a chain update hands exactly one batch to the log database
when it is a trunk acceptance (`AddBlock` succeeds and `Trunk` is true) in which
every receipt that has an output stands at the position of a transaction with a
recoverable signer, and none otherwise (side branch, `AddBlock` failure, or a
trunk acceptance aborted on a signer). Over every sequence of chain updates the
number of inserts equals the number of such trunk acceptances, which is at most
the number of trunk acceptances. -/
theorem C5_insert_count {σ : Type} (c : Component σ) (s : σ) (newBlk : newBlockEvent)
    (evs : List newBlockEvent) :
    (insertedBatches (updateChain c s newBlk).2.1).length
        = (if (addBlockOk c s newBlk && newBlk.Trunk)
              && outputsHaveSigners newBlk.Blk.Transactions 0 newBlk.Receipts then 1 else 0)
    ∧ totalInserts (chainUpdates c s evs) = completedTrunkAcceptances (chainUpdates c s evs)
    ∧ totalInserts (chainUpdates c s evs) ≤ trunkAcceptances (chainUpdates c s evs) := by
  have hseq : ∀ (evs : List newBlockEvent) (s : σ),
      totalInserts (chainUpdates c s evs) = completedTrunkAcceptances (chainUpdates c s evs) := by
    intro evs
    induction evs with
    | nil => intro s; rfl
    | cons ev rest ih =>
      intro s
      have hrest : totalInserts
            (if (updateChain c s ev).2.2 = Status.crashed then []
              else chainUpdates c (updateChain c s ev).1 rest)
          = completedTrunkAcceptances
            (if (updateChain c s ev).2.2 = Status.crashed then []
              else chainUpdates c (updateChain c s ev).1 rest) := by
        split
        · rfl
        · exact ih _
      unfold totalInserts completedTrunkAcceptances at hrest ⊢
      simp only [chainUpdates, List.map_cons, List.sum_cons, List.filter_cons,
        updateChain_insert_count, hrest]
      split <;> simp
      omega
  refine ⟨updateChain_insert_count c s newBlk, hseq evs s, ?_⟩
  rw [hseq evs s]
  unfold completedTrunkAcceptances trunkAcceptances
  exact filter_length_le_of_imp _ _ (by intro x hx; simp at hx; exact hx.1) _

/-- C5 (counterexample): a trunk acceptance (`AddBlock` succeeds, `Trunk` is
true) whose transaction has an unrecoverable signer: the update returns the
signer error after publishing and broadcasting the block, and the log database
receives no insert. -/
theorem C5_trunk_acceptance_without_insert :
    addBlockOk (okComponent ⟨[]⟩) () badSignerEvent = true
    ∧ badSignerEvent.Trunk = true
    ∧ updateChain (okComponent ⟨[]⟩) () badSignerEvent
        = ((), [Effect.sendBestBlock badSignerEvent.Blk,
                Effect.broadcastBlock badSignerEvent.Blk], Status.failed (.other 1))
    ∧ insertedBatches (updateChain (okComponent ⟨[]⟩) () badSignerEvent).2.1 = []
    ∧ outputsHaveSigners badSignerEvent.Blk.Transactions 0 badSignerEvent.Receipts = false
    ∧ totalInserts (chainUpdates (okComponent ⟨[]⟩) () [badSignerEvent]) = 0
    ∧ trunkAcceptances (chainUpdates (okComponent ⟨[]⟩) () [badSignerEvent]) = 1 := by
  refine ⟨rfl, rfl, rfl, rfl, rfl, rfl, rfl⟩

/-! ### Consensus loop -/

theorem consentCalls_append (xs ys : List Effect) :
    consentCalls (xs ++ ys) = consentCalls xs ++ consentCalls ys := by
  induction xs with
  | nil => rfl
  | cons e rest ih => cases e <;> simp [consentCalls, ih]

theorem consentCalls_txpoolAdd (txs : List Transaction) :
    consentCalls (txs.map Effect.txpoolAdd) = [] := by
  induction txs with
  | nil => rfl
  | cons t rest ih => simp [consentCalls, ih]

theorem forkLoop_consentCalls (branch : List Block) :
    consentCalls (forkLoop branch).2 = [] := by
  induction branch with
  | nil => rfl
  | cons b rest ih => simp [forkLoop, consentCalls_append, consentCalls_txpoolAdd, ih]

theorem updateChain_consentCalls {σ : Type} (c : Component σ) (s : σ) (newBlk : newBlockEvent) :
    consentCalls (updateChain c s newBlk).2.1 = [] := by
  unfold updateChain
  rcases c.AddBlock s newBlk.Blk newBlk.Receipts newBlk.Trunk with ⟨s1, r⟩
  cases r with
  | error e => simp [consentCalls]
  | ok fork =>
    cases newBlk.Trunk with
    | false => simp [consentCalls]
    | true =>
      cases buildLogs newBlk.Blk newBlk.Receipts with
      | error a => cases a <;> simp [consentCalls]
      | ok logs => simp [consentCalls, consentCalls_append, forkLoop_consentCalls]

/-- Every call of `consentFn` hands its block to `Consent` exactly once. -/
theorem consentFn_consentCalls {σ : Type} (c : Component σ) (st : LoopState σ) (blk : Block)
    (isSynced : Bool) :
    consentCalls (consentFn c st blk isSynced).1.trace = consentCalls st.trace ++ [blk] := by
  unfold consentFn
  generalize c.Now st.world = n
  obtain ⟨w1, t⟩ := n
  simp only
  generalize c.Consent w1 blk (toUint64 t) = r
  obtain ⟨w2, r⟩ := r
  cases r with
  | error err =>
    simp only
    split
    · simp [consentCalls_append, consentCalls]
    · split
      · split
        · simp [consentCalls_append, consentCalls]
        · simp [consentCalls_append, consentCalls]
      · simp [consentCalls_append, consentCalls]
  | ok p =>
    obtain ⟨trunk, receipts⟩ := p
    simp [updateChainFn, consentCalls_append, consentCalls, updateChain_consentCalls]

/-- An entry of the orphan map survives `consentFn`. -/
theorem consentFn_keeps_orphan {σ : Type} (c : Component σ) (st : LoopState σ) (blk : Block)
    (isSynced : Bool) (k : Bytes32) (o : orphan) (hk : st.orphanMap k = some o) :
    (consentFn c st blk isSynced).1.orphanMap k = some o := by
  unfold consentFn
  generalize c.Now st.world = n
  obtain ⟨w1, t⟩ := n
  simp only
  generalize c.Consent w1 blk (toUint64 t) = r
  obtain ⟨w2, r⟩ := r
  cases r with
  | error err =>
    simp only
    split
    · exact hk
    · split
      · split
        · exact hk
        · rename_i hnone
          have hne : k ≠ blk.Header.ParentID := by
            intro h
            rw [h] at hk
            rw [hk] at hnone
            cases hnone
          simp [Function.update_noteq hne, hk]
      · exact hk
  | ok p =>
    obtain ⟨trunk, receipts⟩ := p
    simp [updateChainFn, hk]

/-- C3 (amended): in the inbound-event branch, when processing of the inbound
block succeeds and the block's id is a key of the orphan map, the key is no
longer in the map when the branch finishes if the orphan is not replayed
(expired), if its replay is accepted, or if its replay fails with an error that
is not parent-not-found (future-block or any other failure); when the replay
fails with parent-not-found the branch leaves the loop iteration before the
`delete` and the entry is kept. -/
theorem C3_orphan_entry_removed {σ : Type} (c : Component σ) (st st1 : LoopState σ)
    (ev : NewBlockEvent) (o : orphan)
    (h1 : consentFn c st ev.Block ev.IsSynced = (st1, Status.ok))
    (hkey : st1.orphanMap ev.Block.Header.ID = some o) :
    (withinWindow o (toUint64 (c.Now st1.world).2) = false →
        (inboundBranch c st ev).1.orphanMap ev.Block.Header.ID = none)
    ∧ (withinWindow o (toUint64 (c.Now st1.world).2) = true →
        ((consentFn c { st1 with world := (c.Now st1.world).1 } o.blk false).2 = Status.ok →
          (inboundBranch c st ev).1.orphanMap ev.Block.Header.ID = none)
        ∧ (∀ e, (consentFn c { st1 with world := (c.Now st1.world).1 } o.blk false).2
              = Status.failed e → IsParentNotFound e = false →
            (inboundBranch c st ev).1.orphanMap ev.Block.Header.ID = none)
        ∧ (∀ e, (consentFn c { st1 with world := (c.Now st1.world).1 } o.blk false).2
              = Status.failed e → IsParentNotFound e = true →
            (inboundBranch c st ev).1.orphanMap ev.Block.Header.ID = some o)) := by
  unfold inboundBranch
  rw [h1]
  simp only [hkey]
  refine ⟨?_, ?_⟩
  · intro hw
    simp [hw, deleteOrphan]
  · intro hw
    have hkeep := consentFn_keeps_orphan c { st1 with world := (c.Now st1.world).1 } o.blk false
      ev.Block.Header.ID o hkey
    generalize consentFn c { st1 with world := (c.Now st1.world).1 } o.blk false = r at hkeep ⊢
    obtain ⟨st2, status⟩ := r
    refine ⟨?_, ?_, ?_⟩
    · intro hs
      simp only at hs
      subst hs
      simp [hw, deleteOrphan]
    · intro e hs he
      simp only at hs
      subst hs
      simp [hw, he, deleteOrphan]
    · intro e hs he
      simp only at hs
      subst hs
      simpa [hw, he] using hkeep

/-- C3 (witness): block 10 arrives while block 11 is held as its orphan, stored
100 seconds earlier; the replay of block 11 is accepted and the entry is gone. -/
theorem C3_orphan_entry_removed_witness :
    (inboundBranch (replayComponent 1000 (.ok (true, []))) (oneOrphan 900)
      { Block := plainBlock 10 9, IsSynced := true }).1.orphanMap 10 = none :=
  ((C3_orphan_entry_removed (replayComponent 1000 (.ok (true, []))) (oneOrphan 900)
    (consentFn (replayComponent 1000 (.ok (true, []))) (oneOrphan 900) (plainBlock 10 9) true).1
    { Block := plainBlock 10 9, IsSynced := true } { blk := plainBlock 11 10, timestamp := 900 }
    rfl rfl).2 rfl).1 rfl

/-- C3 (counterexample): block 10 is accepted while block 11 is held as its
orphan, stored 100 seconds earlier; the replay of block 11 fails with
parent-not-found, and the entry under key 10 is still in the orphan map when
the branch finishes. -/
theorem C3_entry_kept_on_parent_not_found :
    (consentFn (replayComponent 1000 (.error .parentNotFound)) (oneOrphan 900)
        (plainBlock 10 9) true).2 = Status.ok
    ∧ (oneOrphan 900).orphanMap 10 = some { blk := plainBlock 11 10, timestamp := 900 }
    ∧ (inboundBranch (replayComponent 1000 (.error .parentNotFound)) (oneOrphan 900)
        { Block := plainBlock 10 9, IsSynced := true }).2 = true
    ∧ (inboundBranch (replayComponent 1000 (.error .parentNotFound)) (oneOrphan 900)
        { Block := plainBlock 10 9, IsSynced := true }).1.orphanMap 10
        = some { blk := plainBlock 11 10, timestamp := 900 } := by
  refine ⟨rfl, rfl, rfl, rfl⟩

theorem withinWindow_iff (o : orphan) (now : Nat) (hrange : o.timestamp + 300 < U64) :
    withinWindow o now = true ↔ (now : Int) - (o.timestamp : Int) ≤ 300 := by
  unfold withinWindow
  rw [Nat.mod_eq_of_lt hrange]
  simp only [ge_iff_le, decide_eq_true_eq]
  omega

/-- When `Consent` answers parent-not-found for a block whose parent has no
entry yet, `consentFn` stores the block under its parent id together with the
wall-clock second it reads at that moment. -/
theorem consentFn_stores_arrival {σ : Type} (c : Component σ) (st0 : LoopState σ) (blk : Block)
    (isSynced : Bool) (err : Err)
    (hc : (c.Consent (c.Now st0.world).1 blk (toUint64 (c.Now st0.world).2)).2 = .error err)
    (hfut : IsFutureBlock err = false) (hpnf : IsParentNotFound err = true)
    (hnone : st0.orphanMap blk.Header.ParentID = none) :
    (consentFn c st0 blk isSynced).1.orphanMap blk.Header.ParentID
      = some { blk := blk,
               timestamp := toUint64 (c.Now
                 (c.Consent (c.Now st0.world).1 blk (toUint64 (c.Now st0.world).2)).1).2 } := by
  unfold consentFn
  rcases hr : c.Consent (c.Now st0.world).1 blk (toUint64 (c.Now st0.world).2) with ⟨w2, r⟩
  rw [hr] at hc
  simp only at hc
  subst hc
  simp [hr, hfut, hpnf, hnone]

/-- C10 (amended): the arrival timestamp of an orphan is the `uint64` wall-clock
second read when `consentFn` stores it. In the inbound-event branch, when the
successfully processed block's id is a key of the orphan map, the held orphan
is handed to `Consent` again exactly when `arrival_timestamp + 300 >= now` in
`uint64` arithmetic; provided `arrival_timestamp + 300 < 2^64`, that is exactly
when `now − arrival_timestamp ≤ 300`, and when `now − arrival_timestamp > 300`
the orphan is not replayed (the trace is the one left by the first processing)
and its entry is removed from the orphan map. -/
theorem C10_orphan_replay_window {σ : Type} (c : Component σ) (st st1 : LoopState σ)
    (ev : NewBlockEvent) (o : orphan)
    (h1 : consentFn c st ev.Block ev.IsSynced = (st1, Status.ok))
    (hkey : st1.orphanMap ev.Block.Header.ID = some o) :
    (∀ (st0 : LoopState σ) (blk : Block) (isSynced : Bool) (err : Err),
        (c.Consent (c.Now st0.world).1 blk (toUint64 (c.Now st0.world).2)).2 = .error err →
        IsFutureBlock err = false → IsParentNotFound err = true →
        st0.orphanMap blk.Header.ParentID = none →
        (consentFn c st0 blk isSynced).1.orphanMap blk.Header.ParentID
          = some { blk := blk,
                   timestamp := toUint64 (c.Now
                     (c.Consent (c.Now st0.world).1 blk (toUint64 (c.Now st0.world).2)).1).2 })
    ∧ consentCalls (inboundBranch c st ev).1.trace
        = consentCalls st.trace ++ [ev.Block]
          ++ (if (o.timestamp + 300) % 2 ^ 64 ≥ toUint64 (c.Now st1.world).2
              then [o.blk] else [])
    ∧ (o.timestamp + 300 < 2 ^ 64 →
        consentCalls (inboundBranch c st ev).1.trace
            = consentCalls st.trace ++ [ev.Block]
              ++ (if (toUint64 (c.Now st1.world).2 : Int) - (o.timestamp : Int) ≤ 300
                  then [o.blk] else [])
        ∧ ((toUint64 (c.Now st1.world).2 : Int) - (o.timestamp : Int) > 300 →
            (inboundBranch c st ev).1.trace = st1.trace
            ∧ (inboundBranch c st ev).1.orphanMap ev.Block.Header.ID = none)) := by
  have hfirst : consentCalls st1.trace = consentCalls st.trace ++ [ev.Block] := by
    have := consentFn_consentCalls c st ev.Block ev.IsSynced
    rw [h1] at this
    exact this
  have hreplay := consentFn_consentCalls c { st1 with world := (c.Now st1.world).1 } o.blk false
  have hcalls : consentCalls (inboundBranch c st ev).1.trace
      = consentCalls st.trace ++ [ev.Block]
        ++ (if withinWindow o (toUint64 (c.Now st1.world).2) = true then [o.blk] else []) := by
    unfold inboundBranch
    rw [h1]
    simp only [hkey]
    by_cases hw : withinWindow o (toUint64 (c.Now st1.world).2) = true
    · simp only [hw, if_true]
      generalize consentFn c { st1 with world := (c.Now st1.world).1 } o.blk false = r
        at hreplay ⊢
      obtain ⟨st2, status⟩ := r
      simp only at hreplay
      cases status with
      | ok => simp [deleteOrphan, hreplay, hfirst]
      | crashed => simp [hreplay, hfirst]
      | failed e =>
        by_cases he : IsParentNotFound e = true <;> simp [he, deleteOrphan, hreplay, hfirst]
    · simp only [Bool.not_eq_true] at hw
      simp [hw, deleteOrphan, hfirst]
  have hexpired : withinWindow o (toUint64 (c.Now st1.world).2) = false →
      (inboundBranch c st ev).1.trace = st1.trace
      ∧ (inboundBranch c st ev).1.orphanMap ev.Block.Header.ID = none := by
    intro hw
    unfold inboundBranch
    rw [h1]
    simp [hkey, hw, deleteOrphan]
  refine ⟨fun st0 blk isSynced err => consentFn_stores_arrival c st0 blk isSynced err, ?_, ?_⟩
  · rw [hcalls]
    simp [withinWindow, U64]
  · intro hrange
    have hiff := withinWindow_iff o (toUint64 (c.Now st1.world).2) (by unfold U64; exact hrange)
    refine ⟨?_, ?_⟩
    · rw [hcalls]
      by_cases hw : withinWindow o (toUint64 (c.Now st1.world).2) = true
      · simp [hw, hiff.1 hw]
      · have hgt : ¬ ((toUint64 (c.Now st1.world).2 : Int) - (o.timestamp : Int) ≤ 300) :=
          fun h => hw (hiff.2 h)
        simp [hw, hgt]
    · intro hgt
      apply hexpired
      by_cases hw : withinWindow o (toUint64 (c.Now st1.world).2) = true
      · exact absurd (hiff.1 hw) (by omega)
      · simpa using hw

/-- C10 (witness): block 11 arrives at second 900 and is stored as an orphan
of block 10 with that second; block 10 is accepted at second 1201, 301 seconds
later: block 11 is not handed to `Consent` again and its entry is removed. -/
theorem C10_orphan_replay_window_witness :
    (afterOrphan [900, 900, 1201, 1201]).orphanMap 10
        = some { blk := plainBlock 11 10, timestamp := 900 }
    ∧ (inboundBranch scriptedComponent (afterOrphan [900, 900, 1201, 1201])
        { Block := plainBlock 10 9, IsSynced := true }).1.trace
        = (consentFn scriptedComponent (afterOrphan [900, 900, 1201, 1201])
            (plainBlock 10 9) true).1.trace
    ∧ (inboundBranch scriptedComponent (afterOrphan [900, 900, 1201, 1201])
        { Block := plainBlock 10 9, IsSynced := true }).1.orphanMap 10 = none :=
  ⟨rfl,
    ((C10_orphan_replay_window scriptedComponent (afterOrphan [900, 900, 1201, 1201])
      (consentFn scriptedComponent (afterOrphan [900, 900, 1201, 1201]) (plainBlock 10 9) true).1
      { Block := plainBlock 10 9, IsSynced := true } { blk := plainBlock 11 10, timestamp := 900 }
      rfl rfl).2.2 (by decide)).2 (by decide)⟩

/-- C10 (counterexample): the wall clock reads -200 when block 11 is stored as
an orphan of block 10, so the stored `uint64` second is 2^64 - 200; block 10 is
accepted when the clock reads -100, 100 seconds later. The test of line 113
wraps to `100 >= 2^64 - 100`, which fails: block 11 is not handed to `Consent`
again although `now − arrival_timestamp = 100 ≤ 300`, and its entry is
removed. -/
theorem C10_replay_skipped_on_wrap :
    (afterOrphan [-200, -200, -100, -100]).orphanMap 10
        = some { blk := plainBlock 11 10, timestamp := 18446744073709551416 }
    ∧ consentCalls (afterOrphan [-200, -200, -100, -100]).trace = [plainBlock 11 10]
    ∧ (consentFn scriptedComponent (afterOrphan [-200, -200, -100, -100])
        (plainBlock 10 9) true).2 = Status.ok
    ∧ (toUint64 (-100) : Int) - (18446744073709551416 : Int) = 100
    ∧ consentCalls (inboundBranch scriptedComponent (afterOrphan [-200, -200, -100, -100])
        { Block := plainBlock 10 9, IsSynced := true }).1.trace
        = [plainBlock 11 10, plainBlock 10 9]
    ∧ (inboundBranch scriptedComponent (afterOrphan [-200, -200, -100, -100])
        { Block := plainBlock 10 9, IsSynced := true }).1.orphanMap 10 = none := by
  refine ⟨by decide, by decide, by decide, by decide, by decide, by decide⟩

/-- When `IsTrunk` succeeds and the chain update does not panic, the ack is the
last effect of the packed-event branch, after everything the update did. -/
theorem packedBranch_ack_after_update {σ : Type} (c : Component σ) (st : LoopState σ)
    (packed : packedEvent) (w1 : σ) (trunk : Bool)
    (htrunk : c.IsTrunk st.world packed.blk.Header = (w1, .ok trunk))
    (hrun : (updateChainFn c { st with world := w1 }
        { Blk := packed.blk, Trunk := trunk, Receipts := packed.receipts,
          IsSynced := false }).2 ≠ Status.crashed) :
    (packedBranch c st packed).1.trace
      = (updateChainFn c { st with world := w1 }
          { Blk := packed.blk, Trunk := trunk, Receipts := packed.receipts,
            IsSynced := false }).1.trace ++ [Effect.ack packed.ack] := by
  unfold packedBranch
  rw [htrunk]
  rcases hu : updateChainFn c { st with world := w1 }
    { Blk := packed.blk, Trunk := trunk, Receipts := packed.receipts, IsSynced := false }
    with ⟨st1, status⟩
  rw [hu] at hrun
  cases status with
  | ok => simp [hu]
  | failed e => simp [hu]
  | crashed => exact absurd rfl hrun

/-- C2 (failing input): a packed event arrives and `consensus.IsTrunk` returns
an error; the branch performs no chain update and signals no ack, so the event
is consumed while the packer stays blocked on `<-pe.ack`. -/
theorem C2_no_ack_when_is_trunk_fails :
    (packedBranch trunkErrComponent emptyLoop exPacked).2 = true
    ∧ (packedBranch trunkErrComponent emptyLoop exPacked).1.trace = []
    ∧ acksSignalled (packedBranch trunkErrComponent emptyLoop exPacked).1.trace = []
    ∧ acksSignalled (packedBranch (okComponent ⟨[]⟩) emptyLoop exPacked).1.trace = [1] := by
  refine ⟨rfl, rfl, rfl, rfl⟩

/-! ### Packer loop -/

theorem slotOpen_disarmed (BlockInterval now : Nat) (h : BlockInterval ≤ now) :
    slotOpen BlockInterval now 0 = false := by
  unfold slotOpen
  have : (0 + BlockInterval) % U64 ≤ BlockInterval := by
    rw [Nat.zero_add]
    exact Nat.mod_le _ _
  simp only [Bool.and_eq_false_imp, decide_eq_true_eq, decide_eq_false_iff_not]
  intro _
  omega

theorem slotOpen_bounds (BlockInterval now ts : Nat) (h : slotOpen BlockInterval now ts = true) :
    ts ≤ now ∧ now < ts + BlockInterval := by
  unfold slotOpen at h
  simp only [Bool.and_eq_true, decide_eq_true_eq] at h
  have : (ts + BlockInterval) % U64 ≤ ts + BlockInterval := Nat.mod_le _ _
  omega

theorem timerFirings_disarmed {ρ A C : Type} (P : PackerEnv ρ A C) :
    ∀ (nows : List Int) (st : PackLoopState ρ A C),
      (∀ t ∈ nows, P.BlockInterval ≤ toUint64 t) → st.ts = 0 →
      (timerFirings P nows st).packCalls = st.packCalls := by
  intro nows
  induction nows with
  | nil => intro st _ _; rfl
  | cons t rest ih =>
    intro st hnow hts
    have hclosed : slotOpen P.BlockInterval (toUint64 t) st.ts = false := by
      rw [hts]
      exact slotOpen_disarmed _ _ (hnow t (List.mem_cons_self _ _))
    have hstep : timerBranch P st t = st := by simp [timerBranch, hclosed]
    simp only [timerFirings, hstep]
    exact ih st (fun u hu => hnow u (List.mem_cons_of_mem _ hu)) hts

/-- C6 (amended): within one prepared slot, for every value of `ts` and every
sequence of timer firings whose wall-clock seconds are all at least
`BlockInterval`, the proposal procedure is invoked at most once; a firing
invokes it only if `ts <= now < ts + BlockInterval`, that firing sets `ts` to 0,
and with `ts = 0` no later firing invokes it. -/
theorem C6_at_most_one_proposal {ρ A C : Type} (P : PackerEnv ρ A C)
    (st : PackLoopState ρ A C) (nows : List Int)
    (hnow : ∀ t ∈ nows, P.BlockInterval ≤ toUint64 t) :
    (timerFirings P nows st).packCalls.length ≤ st.packCalls.length + 1
    ∧ (∀ t : Int, (timerBranch P st t).packCalls ≠ st.packCalls →
        st.ts ≤ toUint64 t ∧ toUint64 t < st.ts + P.BlockInterval
        ∧ (timerBranch P st t).ts = 0
        ∧ (timerBranch P st t).packCalls = st.packCalls ++ [(st.adopt, st.commit)])
    ∧ (st.ts = 0 → (timerFirings P nows st).packCalls = st.packCalls) := by
  refine ⟨?_, ?_, timerFirings_disarmed P nows st hnow⟩
  · clear * - hnow
    induction nows generalizing st with
    | nil => simp [timerFirings]
    | cons t rest ih =>
      have hrest : ∀ u ∈ rest, P.BlockInterval ≤ toUint64 u :=
        fun u hu => hnow u (List.mem_cons_of_mem _ hu)
      simp only [timerFirings]
      by_cases hopen : slotOpen P.BlockInterval (toUint64 t) st.ts = true
      · have hdis := timerFirings_disarmed P rest (timerBranch P st t) hrest
          (by simp [timerBranch, hopen])
        rw [hdis]
        simp [timerBranch, hopen]
      · have hstep : timerBranch P st t = st := by simp [timerBranch, hopen]
        rw [hstep]
        exact ih st hrest
  · intro t hne
    by_cases hopen : slotOpen P.BlockInterval (toUint64 t) st.ts = true
    · have hb := slotOpen_bounds _ _ _ hopen
      exact ⟨hb.1, hb.2, by simp [timerBranch, hopen], by simp [timerBranch, hopen]⟩
    · exact absurd (by simp [timerBranch, hopen]) hne

/-- C6 (witness): slots armed for second 1003 and firings at seconds 1001, 1003,
1005 and 1007, with `BlockInterval` 10: one proposal. -/
theorem C6_at_most_one_proposal_witness :
    (timerFirings failingPrepare [1001, 1003, 1005, 1007] (armedAt 1003)).packCalls.length
      ≤ (armedAt 1003).packCalls.length + 1 :=
  (C6_at_most_one_proposal failingPrepare (armedAt 1003) [1001, 1003, 1005, 1007]
    (by decide)).1

/-- C6 (counterexample): with `BlockInterval` 10, slots armed for second 3 and
timer firings at the non-decreasing seconds 3 and 5: the first firing proposes
and sets `ts` to 0, and the second firing, finding `0 <= 5 < 0 + 10`, proposes
again. -/
theorem C6_two_proposals_in_one_slot :
    List.Pairwise (fun a b : Int => a ≤ b) [3, 5]
    ∧ (timerBranch failingPrepare (armedAt 3) 3).ts = 0
    ∧ (timerFirings failingPrepare [3, 5] (armedAt 3)).packCalls = [(5, 6), (5, 6)]
    ∧ (timerFirings failingPrepare [3, 5] (armedAt 3)).packCalls.length = 2 := by
  refine ⟨by decide, rfl, rfl, rfl⟩

/-- The second proposal of a disarmed slot exists for every positive
`BlockInterval`: two firings at second 0. -/
theorem timerFirings_twice_at_zero {ρ A C : Type} (P : PackerEnv ρ A C)
    (st : PackLoopState ρ A C) (hpos : 0 < P.BlockInterval) (hlt : P.BlockInterval < U64)
    (hts : st.ts = 0) :
    (timerFirings P [0, 0] st).packCalls
      = st.packCalls ++ [(st.adopt, st.commit), (st.adopt, st.commit)] := by
  have hopen : slotOpen P.BlockInterval (toUint64 0) 0 = true := by
    unfold slotOpen
    rw [Nat.zero_add, Nat.mod_eq_of_lt hlt]
    simp [toUint64, hpos]
  simp [timerFirings, timerBranch, hts, hopen]

/-- C7 (amended): in the new-best-block branch the slots `ts`, `adopt` and
`commit` (and `err`) hold after the branch the values `Prepare` returned,
whether or not it returned an error: the assignment precedes the error check.
On failure the slots are therefore unchanged only when `Prepare` returns,
alongside the error, the values they already held. -/
theorem C7_slots_take_prepare_results {ρ A C : Type} (P : PackerEnv ρ A C)
    (st : PackLoopState ρ A C) (blk : Block) (t : Int) :
    (bestBlockBranch P st blk t).ts = (P.Prepare st.world blk.Header (toUint64 t)).2.1
    ∧ (bestBlockBranch P st blk t).adopt = (P.Prepare st.world blk.Header (toUint64 t)).2.2.1
    ∧ (bestBlockBranch P st blk t).commit = (P.Prepare st.world blk.Header (toUint64 t)).2.2.2.1
    ∧ (bestBlockBranch P st blk t).err = (P.Prepare st.world blk.Header (toUint64 t)).2.2.2.2
    ∧ (bestBlockBranch P st blk t).bestBlock = blk
    ∧ (bestBlockBranch P st blk t).packCalls = st.packCalls := by
  unfold bestBlockBranch
  generalize P.Prepare st.world blk.Header (toUint64 t) = r
  obtain ⟨w1, ts, adopt, commit, err⟩ := r
  exact ⟨rfl, rfl, rfl, rfl, rfl, rfl⟩

/-- C7 (counterexample): the slots hold `ts = 1003`, `adopt = 5`, `commit = 6`;
`Prepare` fails and returns zero values next to its error; after the branch the
slots hold 0, 0 and 0. -/
theorem C7_slots_overwritten_on_failure :
    (bestBlockBranch failingPrepare (armedAt 1003) (plainBlock 11 10) 1000).err
        = some (.other 3)
    ∧ (armedAt 1003).ts = 1003 ∧ (armedAt 1003).adopt = 5 ∧ (armedAt 1003).commit = 6
    ∧ (bestBlockBranch failingPrepare (armedAt 1003) (plainBlock 11 10) 1000).ts = 0
    ∧ (bestBlockBranch failingPrepare (armedAt 1003) (plainBlock 11 10) 1000).adopt = 0
    ∧ (bestBlockBranch failingPrepare (armedAt 1003) (plainBlock 11 10) 1000).commit = 0 := by
  refine ⟨rfl, rfl, rfl, rfl, rfl, rfl, rfl⟩

/-! ### Proposal procedure -/

/-- The calls of `adopt` made by the drain, unfolded one transaction. -/
theorem adoptCallsOf_adoptTx_cons {ρ : Type} (E : PackEnv ρ) (r : ρ) (tx : Transaction)
    (rest : List Transaction) :
    adoptCallsOf (adoptTx E r (tx :: rest)).2
      = (tx, (E.adopt r tx).2) ::
        (if IsBadTx (E.adopt r tx).2 || IsKnownTx (E.adopt r tx).2 then
          adoptCallsOf (adoptTx E (E.Remove (E.adopt r tx).1 tx.ID) rest).2
        else if IsGasLimitReached (E.adopt r tx).2 then []
        else adoptCallsOf (adoptTx E (E.adopt r tx).1 rest).2) := by
  cases h : (E.adopt r tx).2 <;>
    simp [adoptTx, h, IsBadTx, IsKnownTx, IsGasLimitReached, adoptCallsOf]

/-- The removals made by the drain, unfolded one transaction. -/
theorem removals_adoptTx_cons {ρ : Type} (E : PackEnv ρ) (r : ρ) (tx : Transaction)
    (rest : List Transaction) :
    removals (adoptTx E r (tx :: rest)).2
      = if IsBadTx (E.adopt r tx).2 || IsKnownTx (E.adopt r tx).2 then
          tx.ID :: removals (adoptTx E (E.Remove (E.adopt r tx).1 tx.ID) rest).2
        else if IsGasLimitReached (E.adopt r tx).2 then []
        else removals (adoptTx E (E.adopt r tx).1 rest).2 := by
  cases h : (E.adopt r tx).2 <;>
    simp [adoptTx, h, IsBadTx, IsKnownTx, IsGasLimitReached, removals]

theorem adoptTx_calls_initial {ρ : Type} (E : PackEnv ρ) :
    ∀ (pending : List Transaction) (r : ρ),
      (adoptCallsOf (adoptTx E r pending).2).map Prod.fst
        = pending.take (adoptCallsOf (adoptTx E r pending).2).length := by
  intro pending
  induction pending with
  | nil => intro r; simp [adoptTx, adoptCallsOf]
  | cons tx rest ih =>
    intro r
    rw [adoptCallsOf_adoptTx_cons]
    split
    · simp [ih]
    · split
      · simp
      · simp [ih]

theorem adoptTx_no_gas_before_last {ρ : Type} (E : PackEnv ρ) :
    ∀ (pending : List Transaction) (r : ρ),
      ∀ p ∈ (adoptCallsOf (adoptTx E r pending).2).dropLast, IsGasLimitReached p.2 = false := by
  intro pending
  induction pending with
  | nil => intro r p hp; simp [adoptTx, adoptCallsOf] at hp
  | cons tx rest ih =>
    intro r p hp
    rw [adoptCallsOf_adoptTx_cons] at hp
    split at hp
    · rename_i hbk
      cases hcs : adoptCallsOf (adoptTx E (E.Remove (E.adopt r tx).1 tx.ID) rest).2 with
      | nil => simp [hcs] at hp
      | cons x xs =>
        rw [hcs, List.dropLast_cons₂] at hp
        rcases List.mem_cons.1 hp with h | h
        · subst h
          generalize (E.adopt r tx).2 = err at hbk
          cases err <;> simp_all [IsBadTx, IsKnownTx, IsGasLimitReached]
        · exact ih _ p (by rw [hcs]; exact h)
    · split at hp
      · simp at hp
      · rename_i hbk hgas
        cases hcs : adoptCallsOf (adoptTx E (E.adopt r tx).1 rest).2 with
        | nil => simp [hcs] at hp
        | cons x xs =>
          rw [hcs, List.dropLast_cons₂] at hp
          rcases List.mem_cons.1 hp with h | h
          · subst h
            simpa using hgas
          · exact ih _ p (by rw [hcs]; exact h)

theorem getLast?_cons_of_getLast? {α : Type} (x : α) (xs : List α) (p : α)
    (h : xs.getLast? = some p) : (x :: xs).getLast? = some p := by
  cases xs with
  | nil => simp at h
  | cons y ys => simpa [List.getLast?_cons_cons] using h

theorem adoptTx_stops_at_gas_limit {ρ : Type} (E : PackEnv ρ) :
    ∀ (pending : List Transaction) (r : ρ),
      (adoptCallsOf (adoptTx E r pending).2).length < pending.length →
      ∃ p, (adoptCallsOf (adoptTx E r pending).2).getLast? = some p
        ∧ IsGasLimitReached p.2 = true := by
  intro pending
  induction pending with
  | nil => intro r h; simp at h
  | cons tx rest ih =>
    intro r hlt
    rw [adoptCallsOf_adoptTx_cons] at hlt ⊢
    split at hlt
    · rename_i hbk
      simp only [List.length_cons, add_lt_add_iff_right] at hlt
      obtain ⟨p, hp, hg⟩ := ih _ hlt
      simp only [hbk, if_true]
      exact ⟨p, getLast?_cons_of_getLast? _ _ _ hp, hg⟩
    · split at hlt
      · rename_i hbk hgas
        simp only [hbk, hgas, if_true]
        exact ⟨(tx, (E.adopt r tx).2), by simp, hgas⟩
      · rename_i hbk hgas
        simp only [List.length_cons, add_lt_add_iff_right] at hlt
        obtain ⟨p, hp, hg⟩ := ih _ hlt
        simp only [hbk, hgas]
        exact ⟨p, getLast?_cons_of_getLast? _ _ _ hp, hg⟩

theorem adoptTx_removals {ρ : Type} (E : PackEnv ρ) :
    ∀ (pending : List Transaction) (r : ρ),
      removals (adoptTx E r pending).2
        = ((adoptCallsOf (adoptTx E r pending).2).filter
            (fun p => IsBadTx p.2 || IsKnownTx p.2)).map (fun p => p.1.ID) := by
  intro pending
  induction pending with
  | nil => intro r; simp [adoptTx, adoptCallsOf, removals]
  | cons tx rest ih =>
    intro r
    rw [adoptCallsOf_adoptTx_cons, removals_adoptTx_cons]
    split
    · rename_i hbk
      simp [List.filter_cons, hbk, ih]
    · rename_i hbk
      split
      · simp [List.filter_cons, hbk]
      · simp [List.filter_cons, hbk, ih]

theorem adoptTx_visits {ρ : Type} (E : PackEnv ρ) :
    ∀ (pending : List Transaction) (r : ρ),
      adoptCallsOf (adoptTx E r pending).2 = drainVisits E r pending := by
  intro pending
  induction pending with
  | nil => intro r; rfl
  | cons tx rest ih =>
    intro r
    rw [adoptCallsOf_adoptTx_cons]
    cases h : (E.adopt r tx).2 <;>
      simp [drainVisits, offered, h, IsBadTx, IsKnownTx, IsGasLimitReached, ih]

theorem adoptTx_world {ρ : Type} (E : PackEnv ρ) :
    ∀ (pending : List Transaction) (r : ρ),
      (adoptTx E r pending).1 = drainWorld E r pending := by
  intro pending
  induction pending with
  | nil => intro r; rfl
  | cons tx rest ih =>
    intro r
    cases h : (E.adopt r tx).2 <;>
      simp [adoptTx, drainWorld, offered, h, IsBadTx, IsKnownTx, IsGasLimitReached, ih]

/-- C8: for every pending list and every `adopt`, the calls of `adopt` made by
the drain are the pending transactions in list order, each with the outcome the
`adopt` oracle returns for it in the world left by the transactions before it,
up to and including the first one whose outcome is gas-limit-reached and none
after it: the visited transactions are an initial segment of the list, no
visited transaction before the last has the outcome gas-limit-reached, and the
drain stops short of the end of the list only at such a transaction. The
transactions removed from the mempool are exactly the visited ones whose
outcome is bad or known-already, in order, and the world the drain leaves is
the one in which `Remove` was applied after each of them and after no other. -/
theorem C8_drain {ρ : Type} (E : PackEnv ρ) (r : ρ) (pending : List Transaction) :
    adoptCallsOf (adoptTx E r pending).2 = drainVisits E r pending
    ∧ removals (adoptTx E r pending).2
        = ((drainVisits E r pending).filter
            (fun p => decide (p.2 = AdoptOutcome.badTx ∨ p.2 = AdoptOutcome.knownTx))).map
            (fun p => p.1.ID)
    ∧ (adoptTx E r pending).1 = drainWorld E r pending
    ∧ (drainVisits E r pending).map Prod.fst = pending.take (drainVisits E r pending).length
    ∧ (∀ p ∈ (drainVisits E r pending).dropLast, p.2 ≠ AdoptOutcome.gasLimitReached)
    ∧ ((drainVisits E r pending).length < pending.length →
        ∃ p, (drainVisits E r pending).getLast? = some p
          ∧ p.2 = AdoptOutcome.gasLimitReached)
    ∧ (∀ tx rest, pending = tx :: rest →
        (adoptCallsOf (adoptTx E r pending).2).head? = some (tx, (E.adopt r tx).2)) := by
  have hv := adoptTx_visits E pending r
  have hfilter : ∀ xs : List (Transaction × AdoptOutcome),
      xs.filter (fun p => IsBadTx p.2 || IsKnownTx p.2)
        = xs.filter (fun p => decide (p.2 = AdoptOutcome.badTx ∨ p.2 = AdoptOutcome.knownTx)) := by
    intro xs
    apply List.filter_congr
    intro p _
    cases p.2 <;> simp [IsBadTx, IsKnownTx]
  refine ⟨hv, ?_, adoptTx_world E pending r, ?_, ?_, ?_, ?_⟩
  rotate_right
  · intro tx rest hp
    subst hp
    rw [hv]
    simp [drainVisits]
  · rw [adoptTx_removals, hv, hfilter]
  · rw [← hv]
    exact adoptTx_calls_initial E pending r
  · intro p hp hgas
    rw [← hv] at hp
    have := adoptTx_no_gas_before_last E pending r p hp
    simp [hgas, IsGasLimitReached] at this
  · intro hlt
    rw [← hv] at hlt ⊢
    obtain ⟨p, hp, hg⟩ := adoptTx_stops_at_gas_limit E pending r hlt
    refine ⟨p, hp, ?_⟩
    cases hp2 : p.2 <;> simp [hp2, IsGasLimitReached] at hg ⊢

/-- The drain against an oracle that finds every transaction bad: both
transactions are visited and both are removed, and the world records two calls
of `adopt` and two of `Remove`. -/
theorem adoptTx_all_bad :
    adoptTx allBadEnv 0 [exTx 1, exTx 2]
      = (202, [PackEffect.adopt (exTx 1) .badTx, PackEffect.txpoolRemove 1,
               PackEffect.adopt (exTx 2) .badTx, PackEffect.txpoolRemove 2]) := by
  rfl

/-- The drain at a list of four transactions: bad, success, gas limit reached,
known already. The first three are visited and only the first is removed. -/
theorem adoptTx_example :
    (adoptTx (counterEnv 0 [] exOutcome (.error (.other 0))) 0
        [exTx 1, exTx 2, exTx 3, exTx 4]).2
      = [PackEffect.adopt (exTx 1) .badTx, PackEffect.txpoolRemove 1,
         PackEffect.adopt (exTx 2) .success, PackEffect.adopt (exTx 3) .gasLimitReached] := by
  rfl

theorem targetUpdates_append (xs ys : List PackEffect) :
    targetUpdates (xs ++ ys) = targetUpdates xs ++ targetUpdates ys := by
  induction xs with
  | nil => rfl
  | cons e rest ih => cases e <;> simp [targetUpdates, ih]

theorem packedEvents_append (xs ys : List PackEffect) :
    packedEvents (xs ++ ys) = packedEvents xs ++ packedEvents ys := by
  induction xs with
  | nil => rfl
  | cons e rest ih => cases e <;> simp [packedEvents, ih]

theorem adoptTx_targetUpdates {ρ : Type} (E : PackEnv ρ) :
    ∀ (pending : List Transaction) (r : ρ), targetUpdates (adoptTx E r pending).2 = [] := by
  intro pending
  induction pending with
  | nil => intro r; rfl
  | cons tx rest ih =>
    intro r
    cases h : (E.adopt r tx).2 <;>
      simp [adoptTx, h, IsBadTx, IsKnownTx, IsGasLimitReached, targetUpdates, ih]

theorem adoptTx_packedEvents {ρ : Type} (E : PackEnv ρ) :
    ∀ (pending : List Transaction) (r : ρ), packedEvents (adoptTx E r pending).2 = [] := by
  intro pending
  induction pending with
  | nil => intro r; rfl
  | cons tx rest ih =>
    intro r
    cases h : (E.adopt r tx).2 <;>
      simp [adoptTx, h, IsBadTx, IsKnownTx, IsGasLimitReached, packedEvents, ih]

theorem toInt64_lt (x : Int) : toInt64 x < 2 ^ 63 := by
  unfold toInt64
  have := Int.emod_lt_of_pos (x + 2 ^ 63) (show (0 : Int) < 2 ^ 64 by norm_num)
  omega

theorem toUint64_of_pos (e : Int) (hpos : 0 < e) (hlt : e < 2 ^ 63) :
    toUint64 e = e.toNat := by
  unfold toUint64
  rw [Int.emod_eq_of_lt (by omega) (by omega)]

/-- The `uint64` product is the exact product whenever the latter fits in 64
bits. -/
theorem wrap_free (T gasUsed : Nat) (hfit : T * gasUsed < 2 ^ 64) :
    (T % 2 ^ 64 * gasUsed) % 2 ^ 64 = T * gasUsed := by
  by_cases hg : gasUsed = 0
  · subst hg; simp
  · have hT : T < 2 ^ 64 := by
      have : T * 1 ≤ T * gasUsed := Nat.mul_le_mul_left T (by omega)
      omega
    rw [Nat.mod_eq_of_lt hT, Nat.mod_eq_of_lt hfit]

/-- The product wraps for every `TolerableBlockPackingTime` of at least 2: with
`gas_used = 2^63` and `elapsed = 1` the value handed over is not the quotient. -/
theorem targetGasLimit_wraps (T : Nat) (hT : 2 ≤ T) :
    targetGasLimit T (2 ^ 63) 1 ≠ T * 2 ^ 63 / (1 : Int).toNat := by
  unfold targetGasLimit
  have h1 : toUint64 1 = 1 := by decide
  have h2 : (T % U64 * 2 ^ 63) % U64 < U64 := Nat.mod_lt _ (by decide)
  have h3 : U64 ≤ T * 2 ^ 63 := by
    have : 2 * 2 ^ 63 ≤ T * 2 ^ 63 := Nat.mul_le_mul_right _ hT
    unfold U64
    omega
  rw [h1]
  simp only [Nat.div_one, Int.toNat_one]
  omega

/-- C9 (amended): in the proposal procedure, after a successful commit,
`SetTargetGasLimit` is called if and only if `elapsed > 0` and
`gas_used > gas_limit / 3` (integer division); the value passed is
`(TolerableBlockPackingTime × gas_used mod 2^64) / elapsed`, which is
`TolerableBlockPackingTime × gas_used / elapsed` whenever the product is below
2^64; the packed event is then emitted. When the condition fails the target is
not updated, and when commit fails neither a target update nor a packed event
occurs. -/
theorem C9_target_gas_limit {ρ : Type} (E : PackEnv ρ) (r : ρ) :
    (∀ err, (packCommit E r).2 = .error err →
        targetUpdates (pack E r).2 = [] ∧ packedEvents (pack E r).2 = [])
    ∧ (∀ blk receipts, (packCommit E r).2 = .ok (blk, receipts) →
        targetUpdates (pack E r).2
          = (if 0 < packElapsed E r ∧ blk.Header.GasUsed > blk.Header.GasLimit / 3 then
              [(E.TolerableBlockPackingTime % 2 ^ 64 * blk.Header.GasUsed) % 2 ^ 64
                / (packElapsed E r).toNat]
            else [])
        ∧ packedEvents (pack E r).2 = [(blk, receipts)]
        ∧ (E.TolerableBlockPackingTime * blk.Header.GasUsed < 2 ^ 64 →
            (E.TolerableBlockPackingTime % 2 ^ 64 * blk.Header.GasUsed) % 2 ^ 64
                / (packElapsed E r).toNat
              = E.TolerableBlockPackingTime * blk.Header.GasUsed / (packElapsed E r).toNat)) := by
  have hpack : pack E r
      = match packCommit E r with
        | (r4, .error _) =>
          (r4, (adoptTx E (E.Pending (E.MclockNow r).1).1 (E.Pending (E.MclockNow r).1).2).2
            ++ [PackEffect.commit])
        | (_, .ok (blk, receipts)) =>
          ((E.MclockNow (packCommit E r).1).1,
            (adoptTx E (E.Pending (E.MclockNow r).1).1 (E.Pending (E.MclockNow r).1).2).2
              ++ [PackEffect.commit]
              ++ afterCommit E.TolerableBlockPackingTime (packElapsed E r) blk receipts) := by
    unfold pack packElapsed packCommit
    rcases hc : E.commit
      (adoptTx E (E.Pending (E.MclockNow r).1).1 (E.Pending (E.MclockNow r).1).2).1 with ⟨r4, res⟩
    cases res with
    | error e => simp [hc]
    | ok p => obtain ⟨blk, receipts⟩ := p; simp [hc]
  refine ⟨?_, ?_⟩
  · intro err herr
    rw [hpack]
    rcases hc : packCommit E r with ⟨r4, res⟩
    rw [hc] at herr
    simp only at herr
    subst herr
    simp [targetUpdates_append, packedEvents_append, adoptTx_targetUpdates,
      adoptTx_packedEvents, targetUpdates, packedEvents]
  · intro blk receipts hok
    have hlt := toInt64_lt ((E.MclockNow (packCommit E r).1).2 - (E.MclockNow r).2)
    refine ⟨?_, ?_, ?_⟩
    · rw [hpack]
      rcases hc : packCommit E r with ⟨r4, res⟩
      rw [hc] at hok
      simp only at hok
      subst hok
      simp only [targetUpdates_append, adoptTx_targetUpdates, targetUpdates, List.nil_append,
        afterCommit]
      by_cases hpos : 0 < packElapsed E r
      · by_cases hgas : blk.Header.GasUsed > blk.Header.GasLimit / 3
        · have hu : toUint64 (packElapsed E r) = (packElapsed E r).toNat :=
            toUint64_of_pos _ hpos hlt
          simp [hpos, hgas, targetUpdates, targetGasLimit, hu, U64]
        · simp [hpos, hgas, targetUpdates]
      · simp [hpos, targetUpdates]
    · rw [hpack]
      rcases hc : packCommit E r with ⟨r4, res⟩
      rw [hc] at hok
      simp only at hok
      subst hok
      simp only [packedEvents_append, adoptTx_packedEvents, packedEvents, List.nil_append,
        afterCommit]
      split <;> [split; skip] <;> simp [packedEvents]
    · intro hfit
      rw [wrap_free _ _ hfit]

/-- C9 (counterexample): `TolerableBlockPackingTime` is 100000000 (100 ms in
nanoseconds), the committed block has `gas_used = gas_limit = 184467440738`
and `elapsed` is 1; the product exceeds 2^64 and the value handed to
`SetTargetGasLimit` is 90448384, not the quotient 18446744073800000000. -/
theorem C9_target_wraps_around :
    packElapsed (counterEnv 100000000 [] exOutcome
        (.ok (gasBlock 184467440738 184467440738, []))) 0 = 1
    ∧ targetUpdates (pack (counterEnv 100000000 [] exOutcome
        (.ok (gasBlock 184467440738 184467440738, []))) 0).2 = [90448384]
    ∧ ¬ TargetIsExact 100000000 184467440738 1 90448384 := by
  refine ⟨by decide, by decide, ?_⟩
  unfold TargetIsExact
  decide
end Thor
